import Mathlib

/-!
Verification of the DB_Frontend entry-detail normalization core and the
person-dossier cache, shallowly embedded from the TypeScript sources
(`entry-detail.component.ts`, `person-dossier.service.ts`, `api.service.ts`).

Modelling conventions, used throughout:

* JavaScript values arriving in entry records come from HTTP JSON bodies, so
  they are modelled by the inductive `JSValue` (null, booleans, numbers,
  strings, arrays, objects).  JSON cannot encode `undefined`, `NaN`,
  `Infinity` or `Date` objects, so those do not occur in records; a missing
  object property behaves like `null` in every function modelled here, and is
  modelled as `JSValue.null`.
* JavaScript numbers are modelled as integers (`Int`).  Binary floating point
  formatting is outside the scope of this embedding; all concrete numeric
  values exercised by the spec's claims are integers.
* Host string primitives (`trim`, `toLowerCase`, `padStart`, `String(n)`,
  `Number(s)`) are given explicit executable models over `List Char`
  (`toLowerCase` on the ASCII range, `Number` on optionally signed decimal
  integer literals).
* The host `JSON.stringify` / `JSON.parse` pair is modelled by an executable
  printer (`jsonStringify`, with the exact two-space indentation layout the
  component requests) and a fuelled recursive-descent parser (`jsonParse`),
  restricted to integer number literals.
* The host `Date` machinery is modelled timezone-free: `Date.parse` is the
  executable `jsDateParse`, accepting the ISO-like shapes
  `Y⁺-MM-DD[THH:mm[:ss[.f⁺]][Z]]` that the component itself produces and
  consumes, and the `getFullYear`/`getMonth`/... formatting path is the
  executable `formatDateFromTuple` over a civil date-time tuple.
-/
/-! ### Characters and small string utilities -/
/-- The quote character, kept as a named constant. -/
def quoteCh : Char := Char.ofNat 34

/-- The backslash character. -/
def backslashCh : Char := Char.ofNat 92

/-- The opening curly bracket character. -/
def lcurlyCh : Char := Char.ofNat 123

/-- The closing curly bracket character. -/
def rcurlyCh : Char := Char.ofNat 125

/-- Decimal digit test (`0`–`9`). -/
def isDig (c : Char) : Bool := 48 ≤ c.toNat && c.toNat ≤ 57

/-- JavaScript / JSON whitespace as used by `trim` and `JSON.parse`:
space, tab, line feed, carriage return, vertical tab, form feed. -/
def isJsWs (c : Char) : Bool :=
  c.toNat == 32 || c.toNat == 9 || c.toNat == 10 || c.toNat == 13 ||
  c.toNat == 11 || c.toNat == 12

/-- `String.prototype.trim`: drop leading and trailing whitespace. -/
def trimChars (cs : List Char) : List Char :=
  ((cs.dropWhile isJsWs).reverse.dropWhile isJsWs).reverse

/-- `trim` on strings. -/
def jsTrim (s : String) : String := ⟨trimChars s.data⟩

/-- ASCII `toLowerCase` on a character. -/
def lowerCh (c : Char) : Char :=
  if 'A' ≤ c ∧ c ≤ 'Z' then Char.ofNat (c.toNat + 32) else c

/-- `String.prototype.toLowerCase` (ASCII range; record keys are ASCII). -/
def jsToLower (s : String) : String := ⟨s.data.map lowerCh⟩

/-- `String.prototype.endsWith`. -/
def jsEndsWith (s suffix : String) : Bool := suffix.data.isSuffixOf s.data

/-- `String.prototype.startsWith`. -/
def jsStartsWith (s pre : String) : Bool := pre.data.isPrefixOf s.data

/-- Substring occurrence over char lists. -/
def listHasInfix (needle : List Char) : List Char → Bool
  | [] => needle.isEmpty
  | c :: cs => needle.isPrefixOf (c :: cs) || listHasInfix needle cs

/-- `String.prototype.includes`. -/
def jsIncludes (s sub : String) : Bool := listHasInfix sub.data s.data

/-! ### Decimal integer printing and parsing (`String(n)` / `Number(s)`) -/
/-- The character for a single decimal digit. -/
def digCh (d : Nat) : Char := Char.ofNat (48 + d)

/-- Numeric value of a digit character. -/
def digVal (c : Char) : Nat := c.toNat - 48

/-- Little-endian base-10 digits by fuelled structural recursion (so that
the kernel can evaluate it); agrees with `Nat.digits 10`. -/
def natDigitsAux : Nat → Nat → List Nat
  | 0, _ => []
  | fuel + 1, n => if n = 0 then [] else n % 10 :: natDigitsAux fuel (n / 10)

/-- Little-endian base-10 digits. -/
def natDigits (n : Nat) : List Nat := natDigitsAux n n

/-- Decimal digit characters of a natural number, most significant first
(the behaviour of JavaScript `String(n)` for natural `n`). -/
def natToChars (n : Nat) : List Char :=
  if n = 0 then ['0'] else ((natDigits n).map digCh).reverse

/-- `String(n)` for an integer. -/
def intToString (n : Int) : String :=
  if n < 0 then "-" ++ ⟨natToChars n.natAbs⟩ else ⟨natToChars n.toNat⟩

/-- Value of a most-significant-first digit-character list. -/
def digitsVal (cs : List Char) : Nat := Nat.ofDigits 10 ((cs.map digVal).reverse)

/-- Parse a non-empty all-digit character list. -/
def parseDigits (cs : List Char) : Option Nat :=
  if cs ≠ [] ∧ cs.all isDig then some (digitsVal cs) else none

/-- `Number(s)` restricted to optionally signed decimal integer literals
(with surrounding whitespace); everything else is NaN, modelled as `none`. -/
def jsStringToInt (s : String) : Option Int :=
  if (jsTrim s).data.head? = some '-' then
    (parseDigits (jsTrim s).data.tail).map (fun n => -(Int.ofNat n))
  else if (jsTrim s).data.head? = some '+' then
    (parseDigits (jsTrim s).data.tail).map Int.ofNat
  else
    (parseDigits (jsTrim s).data).map Int.ofNat

/-! ### JSON values (the value universe of HTTP-delivered records) -/
/-- JavaScript values as delivered by JSON HTTP bodies. -/
inductive JSValue where
  | null
  | bool (b : Bool)
  | num (n : Int)
  | str (s : String)
  | arr (xs : List JSValue)
  | obj (fields : List (String × JSValue))

/-- The newline character. -/
def nlCh : Char := Char.ofNat 10

/-- Lower-case hexadecimal digit character. -/
def hexDigCh (n : Nat) : Char := if n < 10 then digCh n else Char.ofNat (87 + n)

/-- Value of a hexadecimal digit character. -/
def hexVal (c : Char) : Option Nat :=
  if isDig c then some (digVal c)
  else if 97 ≤ c.toNat ∧ c.toNat ≤ 102 then some (c.toNat - 87)
  else if 65 ≤ c.toNat ∧ c.toNat ≤ 70 then some (c.toNat - 55)
  else none

/-- `JSON.stringify` escaping of a single string character. -/
def escChar (c : Char) : List Char :=
  if c = quoteCh then [backslashCh, quoteCh]
  else if c = backslashCh then [backslashCh, backslashCh]
  else if c.toNat = 8 then [backslashCh, 'b']
  else if c.toNat = 9 then [backslashCh, 't']
  else if c.toNat = 10 then [backslashCh, 'n']
  else if c.toNat = 12 then [backslashCh, 'f']
  else if c.toNat = 13 then [backslashCh, 'r']
  else if c.toNat < 32 then
    [backslashCh, 'u', '0', '0', hexDigCh (c.toNat / 16), hexDigCh (c.toNat % 16)]
  else [c]

/-- A JSON string literal: quote, escaped characters, quote. -/
def quoteString (s : String) : List Char :=
  quoteCh :: (s.data.map escChar).flatten ++ [quoteCh]

/-- Indentation for the pretty layout of `JSON.stringify(v, null, 2)`. -/
def indentChars (n : Nat) : List Char := List.replicate n ' '

mutual

/-- `JSON.stringify(v)` (compact, `pretty = false`) and
`JSON.stringify(v, null, 2)` (`pretty = true`, two-space nesting), at
current indentation `ind`. -/
def printJson (pretty : Bool) (ind : Nat) : JSValue → List Char
  | .null => ['n', 'u', 'l', 'l']
  | .bool b => if b then ['t', 'r', 'u', 'e'] else ['f', 'a', 'l', 's', 'e']
  | .num n => (intToString n).data
  | .str s => quoteString s
  | .arr xs =>
    match xs with
    | [] => ['[', ']']
    | x :: rest =>
      if pretty then
        '[' :: nlCh :: (printItems pretty (ind + 2) (x :: rest) ++ nlCh :: indentChars ind ++ [']'])
      else
        '[' :: (printItems pretty (ind + 2) (x :: rest) ++ [']'])
  | .obj fs =>
    match fs with
    | [] => [lcurlyCh, rcurlyCh]
    | f :: rest =>
      if pretty then
        lcurlyCh :: nlCh ::
          (printFields pretty (ind + 2) (f :: rest) ++ nlCh :: indentChars ind ++ [rcurlyCh])
      else
        lcurlyCh :: (printFields pretty (ind + 2) (f :: rest) ++ [rcurlyCh])

/-- Comma-separated array items (with per-line indentation when pretty). -/
def printItems (pretty : Bool) (ind : Nat) : List JSValue → List Char
  | [] => []
  | [x] => (if pretty then indentChars ind else []) ++ printJson pretty ind x
  | x :: y :: rest =>
    (if pretty then indentChars ind else []) ++ printJson pretty ind x ++
      (if pretty then [',', nlCh] else [',']) ++ printItems pretty ind (y :: rest)

/-- Comma-separated object members. -/
def printFields (pretty : Bool) (ind : Nat) : List (String × JSValue) → List Char
  | [] => []
  | [(k, v)] =>
    (if pretty then indentChars ind else []) ++ quoteString k ++
      ':' :: (if pretty then [' '] else []) ++ printJson pretty ind v
  | (k, v) :: g :: rest =>
    (if pretty then indentChars ind else []) ++ quoteString k ++
      ':' :: (if pretty then [' '] else []) ++ printJson pretty ind v ++
      (if pretty then [',', nlCh] else [',']) ++ printFields pretty ind (g :: rest)

end

/-- Skip JSON whitespace. -/
def skipWs (cs : List Char) : List Char := cs.dropWhile isJsWs

/-- Parse the body of a JSON string literal (after the opening quote),
returning the decoded characters and the input following the closing
quote.  Unicode escapes for surrogate code units are not modelled. -/
def parseStrChars : List Char → Option (List Char × List Char)
  | [] => none
  | c :: 'u' :: h1 :: h2 :: h3 :: h4 :: rest3 =>
    if c = backslashCh then
      match hexVal h1, hexVal h2, hexVal h3, hexVal h4 with
      | some a, some b, some c2, some d =>
        let v := 4096 * a + 256 * b + 16 * c2 + d
        if 55296 ≤ v ∧ v < 57344 then none
        else (parseStrChars rest3).map (fun p => (Char.ofNat v :: p.1, p.2))
      | _, _, _, _ => none
    else if c = quoteCh then some ([], 'u' :: h1 :: h2 :: h3 :: h4 :: rest3)
    else if c.toNat < 32 then none
    else (parseStrChars ('u' :: h1 :: h2 :: h3 :: h4 :: rest3)).map (fun p => (c :: p.1, p.2))
  | c :: e :: rest2 =>
    if c = quoteCh then some ([], e :: rest2)
    else if c = backslashCh then
      if e = quoteCh then (parseStrChars rest2).map (fun p => (quoteCh :: p.1, p.2))
      else if e = backslashCh then (parseStrChars rest2).map (fun p => (backslashCh :: p.1, p.2))
      else if e = '/' then (parseStrChars rest2).map (fun p => ('/' :: p.1, p.2))
      else if e = 'b' then (parseStrChars rest2).map (fun p => (Char.ofNat 8 :: p.1, p.2))
      else if e = 'f' then (parseStrChars rest2).map (fun p => (Char.ofNat 12 :: p.1, p.2))
      else if e = 'n' then (parseStrChars rest2).map (fun p => (Char.ofNat 10 :: p.1, p.2))
      else if e = 'r' then (parseStrChars rest2).map (fun p => (Char.ofNat 13 :: p.1, p.2))
      else if e = 't' then (parseStrChars rest2).map (fun p => (Char.ofNat 9 :: p.1, p.2))
      else none
    else if c.toNat < 32 then none
    else (parseStrChars (e :: rest2)).map (fun p => (c :: p.1, p.2))
  | [c] =>
    if c = quoteCh then some ([], []) else none

/-- Parse a JSON integer literal token (sign and decimal digits). -/
def parseNumToken (cs : List Char) : Option (Int × List Char) :=
  if cs.head? = some '-' then
    if (cs.tail.takeWhile isDig).isEmpty then none
    else some (-(Int.ofNat (digitsVal (cs.tail.takeWhile isDig))), cs.tail.dropWhile isDig)
  else
    if (cs.takeWhile isDig).isEmpty then none
    else some (Int.ofNat (digitsVal (cs.takeWhile isDig)), cs.dropWhile isDig)

mutual

/-- Fuelled recursive-descent `JSON.parse` for a single value; returns the
value and the unconsumed input. -/
def parseJson (fuel : Nat) (cs0 : List Char) : Option (JSValue × List Char) :=
  match fuel with
  | 0 => none
  | fuel + 1 =>
    match skipWs cs0 with
    | [] => none
    | c :: rest =>
      if c = 'n' then
        if ['u', 'l', 'l'].isPrefixOf rest then some (.null, rest.drop 3) else none
      else if c = 't' then
        if ['r', 'u', 'e'].isPrefixOf rest then some (.bool true, rest.drop 3) else none
      else if c = 'f' then
        if ['a', 'l', 's', 'e'].isPrefixOf rest then some (.bool false, rest.drop 4) else none
      else if c = quoteCh then
        (parseStrChars rest).map (fun p => (.str ⟨p.1⟩, p.2))
      else if c = '[' then
        match skipWs rest with
        | [] => none
        | d :: rest2 =>
          if d = ']' then some (.arr [], rest2)
          else (parseItems fuel (d :: rest2)).map (fun p => (.arr p.1, p.2))
      else if c = lcurlyCh then
        match skipWs rest with
        | [] => none
        | d :: rest2 =>
          if d = rcurlyCh then some (.obj [], rest2)
          else (parseFields fuel (d :: rest2)).map (fun p => (.obj p.1, p.2))
      else
        (parseNumToken (c :: rest)).map (fun p => (.num p.1, p.2))

/-- Items of a non-empty JSON array, up to and including the closing
bracket. -/
def parseItems (fuel : Nat) (cs : List Char) : Option (List JSValue × List Char) :=
  match fuel with
  | 0 => none
  | fuel + 1 =>
    match parseJson fuel cs with
    | none => none
    | some (v, rest) =>
      match skipWs rest with
      | [] => none
      | c :: rest2 =>
        if c = ',' then
          match parseItems fuel rest2 with
          | none => none
          | some (vs, rest3) => some (v :: vs, rest3)
        else if c = ']' then some ([v], rest2)
        else none

/-- Members of a non-empty JSON object, up to and including the closing
brace. -/
def parseFields (fuel : Nat) (cs : List Char) :
    Option (List (String × JSValue) × List Char) :=
  match fuel with
  | 0 => none
  | fuel + 1 =>
    match skipWs cs with
    | [] => none
    | c :: rest =>
      if c = quoteCh then
        match parseStrChars rest with
        | none => none
        | some (k, rest2) =>
          match skipWs rest2 with
          | [] => none
          | d :: rest3 =>
            if d = ':' then
              match parseJson fuel rest3 with
              | none => none
              | some (v, rest4) =>
                match skipWs rest4 with
                | [] => none
                | e :: rest5 =>
                  if e = ',' then
                    match parseFields fuel rest5 with
                    | none => none
                    | some (fs, rest6) => some ((⟨k⟩, v) :: fs, rest6)
                  else if e = rcurlyCh then some ([(⟨k⟩, v)], rest5)
                  else none
            else none
      else none

end

/-- `JSON.parse(s)`: parse one value and require only trailing whitespace. -/
def jsonParse (s : String) : Option JSValue :=
  match parseJson (s.data.length + 1) s.data with
  | some (v, rest) => if (skipWs rest).isEmpty then some v else none
  | none => none

/-! ### Fuel bookkeeping and round-trip for the JSON codec -/
mutual

/-- Fuel sufficient for `parseJson` to parse the printed form of a value. -/
def jsonNeed : JSValue → Nat
  | .arr xs => 1 + needItems xs
  | .obj fs => 1 + needFields fs
  | _ => 1

/-- Fuel sufficient for `parseItems` on printed items. -/
def needItems : List JSValue → Nat
  | [] => 1
  | [x] => 1 + jsonNeed x
  | x :: y :: rest => 1 + max (jsonNeed x) (needItems (y :: rest))

/-- Fuel sufficient for `parseFields` on printed members. -/
def needFields : List (String × JSValue) → Nat
  | [] => 1
  | [(_, v)] => 1 + jsonNeed v
  | (_, v) :: g :: rest => 1 + max (jsonNeed v) (needFields (g :: rest))

end

/-- The head of the input after a printed value is not a digit. -/
def NotDigitHead (rest : List Char) : Prop :=
  ∀ c, rest.head? = some c → isDig c = false

/-! ### The host `Date` model: civil tuples, `Date.parse`, input formatting -/
/-- A civil date-time value, the timezone-free model of a JS `Date`
(milliseconds timestamps are converted to such tuples by `msToTuple`). -/
structure DateTuple where
  year : Int
  month : Nat
  day : Nat
  hour : Nat
  minute : Nat
deriving DecidableEq

/-- The two date layouts of the component (`'date' | 'datetime'`). -/
inductive DateVariant where
  | date
  | datetime
deriving DecidableEq

/-- `String(num).padStart(2, '0')` over characters. -/
def pad2 (n : Nat) : List Char :=
  List.replicate (2 - (natToChars n).length) '0' ++ natToChars n

/-- `formatDateFromTimestamp` on the civil tuple:
`${year}-${pad(month)}-${pad(day)}` plus `T${pad(hour)}:${pad(minute)}`
for the date-time variant. -/
def formatDateFromTuple (t : DateTuple) (variant : DateVariant) : String :=
  ⟨(intToString t.year).data ++ '-' :: pad2 t.month ++ '-' :: pad2 t.day ++
    (if variant = DateVariant.datetime then 'T' :: pad2 t.hour ++ ':' :: pad2 t.minute else [])⟩

/-- Two decimal digits. -/
def parse2 (cs : List Char) : Option (Nat × List Char) :=
  match cs with
  | a :: b :: r =>
    if isDig a && isDig b then some (10 * digVal a + digVal b, r) else none
  | _ => none

/-- Optional seconds / milliseconds / `Z` tail of an ISO date-time string. -/
def timeTailOk (r : List Char) : Bool :=
  if r.isEmpty then true
  else if r = ['Z'] then true
  else if r.head? = some ':' then
    match parse2 r.tail with
    | none => false
    | some (ss, r2) =>
      if 59 < ss then false
      else if r2.isEmpty then true
      else if r2 = ['Z'] then true
      else if r2.head? = some '.' then
        (!(r2.tail.takeWhile isDig).isEmpty) &&
          ((r2.tail.dropWhile isDig).isEmpty || r2.tail.dropWhile isDig = ['Z'])
      else false
  else false

/-- The host `Date.parse`, restricted to the ISO-like shapes
`Y⁺-MM-DD[THH:mm[:ss[.f⁺]][Z]]` that the component produces and consumes
(`none` models `NaN`; the timezone suffix is ignored, the model being
timezone-free). -/
def jsDateParse (s : String) : Option DateTuple :=
  if (s.data.takeWhile isDig).isEmpty then none
  else if (s.data.dropWhile isDig).head? ≠ some '-' then none
  else
    match parse2 (s.data.dropWhile isDig).tail with
    | none => none
    | some (mo, r3) =>
      if r3.head? ≠ some '-' then none
      else
        match parse2 r3.tail with
        | none => none
        | some (d, r5) =>
          if mo < 1 ∨ 12 < mo ∨ d < 1 ∨ 31 < d then none
          else if r5.isEmpty then
            some ⟨Int.ofNat (digitsVal (s.data.takeWhile isDig)), mo, d, 0, 0⟩
          else if r5.head? ≠ some 'T' then none
          else
            match parse2 r5.tail with
            | none => none
            | some (h, r7) =>
              if r7.head? ≠ some ':' then none
              else
                match parse2 r7.tail with
                | none => none
                | some (mi, r9) =>
                  if 23 < h ∨ 59 < mi then none
                  else if timeTailOk r9 then
                    some ⟨Int.ofNat (digitsVal (s.data.takeWhile isDig)), mo, d, h, mi⟩
                  else none

/-- Days-to-civil conversion (Gregorian, proleptic); used by `msToTuple`. -/
def civilFromDays (z : Int) : Int × Nat × Nat :=
  let z' := z + 719468
  let era := if 0 ≤ z' then z' / 146097 else (z' - 146096) / 146097
  let doe := (z' - era * 146097).toNat
  let yoe := (doe - doe / 1460 + doe / 36524 - doe / 146096) / 365
  let doy := doe - (365 * yoe + yoe / 4 - yoe / 100)
  let mp := (5 * doy + 2) / 153
  let d := doy - (153 * mp + 2) / 5 + 1
  let m := if mp < 10 then mp + 3 else mp - 9
  (era * 400 + Int.ofNat yoe + (if m ≤ 2 then 1 else 0), m, d)

/-- `new Date(ms)` decomposed into civil fields (UTC; the model is
timezone-free). -/
def msToTuple (ms : Int) : DateTuple :=
  let days := if 0 ≤ ms then ms / 86400000 else (ms - 86399999) / 86400000
  let msOfDay := (ms - days * 86400000).toNat
  let (y, mo, d) := civilFromDays days
  ⟨y, mo, d, msOfDay / 3600000, msOfDay % 3600000 / 60000⟩

/-- The regular expression `^\d{4}-\d{2}-\d{2}$` of `formatDateForInput`. -/
def matchesDateRe (s : String) : Bool :=
  match s.data with
  | [a, b, c, d, e, f, g, h, i, j] =>
    isDig a && isDig b && isDig c && isDig d && (e == '-') &&
    isDig f && isDig g && (h == '-') && isDig i && isDig j
  | _ => false

/-- The regular expression `^\d{4}-\d{2}-\d{2}T\d{2}:\d{2}$`. -/
def matchesDateTimeRe (s : String) : Bool :=
  match s.data with
  | [a, b, c, d, e, f, g, h, i, j, k, l, m, n, o, p] =>
    isDig a && isDig b && isDig c && isDig d && (e == '-') &&
    isDig f && isDig g && (h == '-') && isDig i && isDig j &&
    (k == 'T') && isDig l && isDig m && (n == ':') && isDig o && isDig p
  | _ => false

/-- JavaScript falsiness (`!value`) over the record value universe. -/
def jsFalsy : JSValue → Bool
  | .null => true
  | .bool b => !b
  | .num n => n == 0
  | .str s => s.data.isEmpty
  | _ => false

/-- `formatDateForInput(value, variant)` of the component: falsy values give
`''`; strings already in the target shape are returned trimmed; other
strings go through `Date.parse`; numeric values are treated as
milliseconds timestamps.  (The `value instanceof Date` branch of the
source cannot fire for JSON-derived record values and is omitted.) -/
def formatDateForInput (v : JSValue) (variant : DateVariant) : String :=
  if jsFalsy v then ""
  else
    match v with
    | .str s =>
      if variant = DateVariant.date ∧ matchesDateRe (jsTrim s) then jsTrim s
      else if variant = DateVariant.datetime ∧ matchesDateTimeRe (jsTrim s) then jsTrim s
      else
        match jsDateParse (jsTrim s) with
        | some t => formatDateFromTuple t variant
        | none => ""
    | .num n => formatDateFromTuple (msToTuple n) variant
    | _ => ""

/-! ### Entry-detail component: classifier, value codec, form builder, differ
(`entry-detail.component.ts`) -/
/-- The input types assignable by `detectFieldType`. -/
inductive EntryFieldInputType where
  | text
  | textarea
  | number
  | boolean
  | date
  | datetime
  | json
  | select
deriving DecidableEq

/-- The component's `selectFieldKeys` set. -/
def selectFieldKeys : List String :=
  ["gender", "status", "risk_level", "energy_type", "vehicle_type"]

/-- The component's `readOnlyKeys` set. -/
def readOnlyKeys : List String :=
  ["id", "_id", "type", "createdat", "updatedat", "created_at", "updated_at",
   "timestamp", "occurredat", "occurred_at"]

/-- The component's `dateFieldHints` map. -/
def dateFieldHints : List (String × DateVariant) :=
  [("date_of_birth", DateVariant.date), ("dob", DateVariant.date),
   ("birthdate", DateVariant.date), ("last_seen_at", DateVariant.datetime),
   ("last_seen", DateVariant.datetime), ("last_service_at", DateVariant.datetime),
   ("occurred_at", DateVariant.datetime), ("occurredat", DateVariant.datetime),
   ("created_at", DateVariant.datetime), ("createdat", DateVariant.datetime),
   ("updated_at", DateVariant.datetime), ("updatedat", DateVariant.datetime),
   ("timestamp", DateVariant.datetime)]

/-- `isSelectFieldKey`. -/
def isSelectFieldKey (key : String) : Bool := selectFieldKeys.contains (jsToLower key)

/-- `isReadOnlyKey`: `external_id` is exempted, then the static set, then any
key ending in `id` other than `metadata`. -/
def isReadOnlyKey (key : String) : Bool :=
  if jsToLower key = "external_id" then false
  else if readOnlyKeys.contains (jsToLower key) then true
  else if jsEndsWith (jsToLower key) "id" && jsToLower key ≠ "metadata" then true
  else false

/-- `isVisibilityKey`. -/
def isVisibilityKey (key : String) : Bool := key == "visibility_level"

/-- `shouldHideField`: system keys and the visibility key are not rendered. -/
def shouldHideField (key : String) : Bool :=
  jsToLower key == "id" || jsToLower key == "_id" || jsToLower key == "metadata" ||
  jsToLower key == "tags" || jsToLower key == "created_at" ||
  jsToLower key == "updated_at" || isVisibilityKey (jsToLower key)

/-- `stringifyValue`: null-ish values become `''`, strings pass through,
primitives via `String(...)`, containers via `JSON.stringify(value, null, 2)`
(total in this model, so the `try/catch` fallback cannot fire). -/
def stringifyValue : JSValue → String
  | JSValue.null => ""
  | JSValue.str s => s
  | JSValue.num n => intToString n
  | JSValue.bool b => if b then "true" else "false"
  | JSValue.arr xs => ⟨printJson true 0 (JSValue.arr xs)⟩
  | JSValue.obj fs => ⟨printJson true 0 (JSValue.obj fs)⟩

/-- `looksLikeJson`: trimmed value delimited by `{}`, `[]` or `""`. -/
def looksLikeJson (value : String) : Bool :=
  if value.data.isEmpty then false
  else if (jsTrim value).data.length < 2 then false
  else
    ((jsTrim value).data.head? == some lcurlyCh && (jsTrim value).data.getLast? == some rcurlyCh) ||
    ((jsTrim value).data.head? == some '[' && (jsTrim value).data.getLast? == some ']') ||
    ((jsTrim value).data.head? == some quoteCh && (jsTrim value).data.getLast? == some quoteCh)

/-- `shouldUseTextarea`: embedded newline or more than 80 characters. -/
def shouldUseTextarea (value : String) : Bool :=
  value.data.contains nlCh || decide (80 < value.data.length)

/-- `isBooleanKey`: `is_`/`has_` prefixes, flag-like suffixes, or the exact
match set. -/
def isBooleanKey (key : String) : Bool :=
  if jsStartsWith (jsToLower key) "is_" || jsStartsWith (jsToLower key) "has_" then true
  else if jsEndsWith (jsToLower key) "_flag" || jsEndsWith (jsToLower key) "_enabled" ||
      jsEndsWith (jsToLower key) "_disabled" || jsEndsWith (jsToLower key) "_allowed" then true
  else if ["pinned", "verified", "blocked", "active"].contains (jsToLower key) then true
  else false

/-- The token set of `isBooleanValue`. -/
def booleanTokens : List String := ["true", "false", "1", "0", "yes", "no", "on", "off"]

/-- `isBooleanValue`: literal booleans, the token strings, or a 0/1 number
under a boolean-like key. -/
def isBooleanValue (key : String) (v : JSValue) : Bool :=
  match v with
  | JSValue.bool _ => true
  | JSValue.str s => booleanTokens.contains (jsToLower (jsTrim s))
  | JSValue.num n => if n == 0 || n == 1 then isBooleanKey key else false
  | _ => false

/-- `shouldForceTextInput`: address-like keys never get typed editors. -/
def shouldForceTextInput (normalizedKey : String) : Bool :=
  jsIncludes normalizedKey "address" || jsIncludes normalizedKey "street" ||
  jsIncludes normalizedKey "postal" || jsIncludes normalizedKey "zipcode" ||
  jsIncludes normalizedKey "zip_code" || jsIncludes normalizedKey "zip"

/-- `dateVariantFromKey`: explicit hints, then suffix rules. -/
def dateVariantFromKey (key : String) : Option DateVariant :=
  match dateFieldHints.find? (fun p => p.1 == key) with
  | some p => some p.2
  | none =>
    if jsEndsWith key "_date" || jsIncludes key "date_of" || jsEndsWith key "dob" then
      some DateVariant.date
    else if jsEndsWith key "_at" || jsEndsWith key "_timestamp" || jsEndsWith key "timestamp" ||
        jsEndsWith key "_time" || jsIncludes key "last_seen" || jsIncludes key "occurred" then
      some DateVariant.datetime
    else none

/-- `detectDateVariant`: key hints only.  The source's remaining check,
`value instanceof Date`, can never fire for JSON-delivered record values
(JSON has no `Date` encoding), so it is omitted from the model. -/
def detectDateVariant (key : String) (_v : JSValue) : Option DateVariant :=
  dateVariantFromKey (jsToLower key)

/-- `detectFieldType`, the field-type classifier, with the source's branch
order: select keys, `external_id`, forced-text keys, boolean-like values,
numbers, date variants, JSON-looking strings, textarea/text. -/
def detectFieldType (key : String) (value : JSValue) : EntryFieldInputType :=
  if isSelectFieldKey (jsToLower key) then EntryFieldInputType.select
  else if jsToLower key = "external_id" then EntryFieldInputType.text
  else if shouldForceTextInput (jsToLower key) then
    (if shouldUseTextarea (stringifyValue value) then EntryFieldInputType.textarea
     else EntryFieldInputType.text)
  else if isBooleanValue key value then EntryFieldInputType.boolean
  else
    match value with
    | JSValue.num _ => EntryFieldInputType.number
    | _ =>
      match detectDateVariant key value with
      | some DateVariant.date => EntryFieldInputType.date
      | some DateVariant.datetime => EntryFieldInputType.datetime
      | none =>
        if looksLikeJson (stringifyValue value) then EntryFieldInputType.json
        else if shouldUseTextarea (stringifyValue value) then EntryFieldInputType.textarea
        else EntryFieldInputType.text

/-- `toBoolean`: booleans pass, `0`/`1`, then the token strings; anything
else is `null`. -/
def toBoolean (v : JSValue) : JSValue :=
  match v with
  | JSValue.bool b => JSValue.bool b
  | JSValue.num n => if n == 1 then JSValue.bool true
      else if n == 0 then JSValue.bool false else JSValue.null
  | JSValue.str s =>
    if ["true", "1", "yes", "on"].contains (jsToLower (jsTrim s)) then JSValue.bool true
    else if ["false", "0", "no", "off"].contains (jsToLower (jsTrim s)) then JSValue.bool false
    else JSValue.null
  | _ => JSValue.null

/-- `toNumber`: finite numbers pass (every `Int` is finite), non-blank
strings via `Number(...)`; `null` models the source's `null`. -/
def toNumber (v : JSValue) : Option Int :=
  match v with
  | JSValue.num n => some n
  | JSValue.str s => if 0 < (jsTrim s).data.length then jsStringToInt s else none
  | _ => none

/-- `prepareControlValue`: the editable representation per input type. -/
def prepareControlValue (value : JSValue) (inputType : EntryFieldInputType) : JSValue :=
  match inputType with
  | EntryFieldInputType.boolean =>
    (match toBoolean value with
     | JSValue.bool b => JSValue.bool b
     | _ => JSValue.bool false)
  | EntryFieldInputType.number =>
    JSValue.str (stringifyValue (match toNumber value with
      | some n => JSValue.num n
      | none => JSValue.null))
  | EntryFieldInputType.date => JSValue.str (formatDateForInput value DateVariant.date)
  | EntryFieldInputType.datetime => JSValue.str (formatDateForInput value DateVariant.datetime)
  | _ => JSValue.str (stringifyValue value)

/-- The slice of `EntryFieldConfig` that drives comparison and payload
construction. -/
structure EntryFieldConfig where
  key : String
  inputType : EntryFieldInputType
  readOnly : Bool
deriving DecidableEq

/-- `normalizeValueForComparison`. -/
def normalizeValueForComparison (value : JSValue) (config : EntryFieldConfig) : JSValue :=
  match config.inputType with
  | EntryFieldInputType.boolean => toBoolean value
  | EntryFieldInputType.number =>
    JSValue.str (stringifyValue (match toNumber value with
      | some n => JSValue.num n
      | none => JSValue.null))
  | EntryFieldInputType.date =>
    (if formatDateForInput value DateVariant.date = "" then JSValue.null
     else JSValue.str (formatDateForInput value DateVariant.date))
  | EntryFieldInputType.datetime =>
    (if formatDateForInput value DateVariant.datetime = "" then JSValue.null
     else JSValue.str (formatDateForInput value DateVariant.datetime))
  | EntryFieldInputType.json => JSValue.str (jsTrim (stringifyValue value))
  | _ => JSValue.str (jsTrim (stringifyValue value))

/-- JavaScript `===` on the values that flow through `valuesEqual`.
Arrays and objects compare by reference; two distinct normalized values are
never the same reference, and normalization only produces primitives, so the
container case is `false`. -/
def jsStrictEq (a b : JSValue) : Bool :=
  match a, b with
  | JSValue.null, JSValue.null => true
  | JSValue.bool x, JSValue.bool y => x == y
  | JSValue.num x, JSValue.num y => x == y
  | JSValue.str x, JSValue.str y => x == y
  | _, _ => false

/-- `Boolean(v)`. -/
def jsTruthy (v : JSValue) : Bool := !(jsFalsy v)

mutual

/-- `String(v)` (with `null ?? ''` collapsing null to the empty string, as
in `valuesEqual`); arrays join their coerced elements with commas, objects
give `[object Object]`. -/
def jsCoerceString : JSValue → String
  | JSValue.null => ""
  | JSValue.bool b => if b then "true" else "false"
  | JSValue.num n => intToString n
  | JSValue.str s => s
  | JSValue.arr xs => ⟨jsCoerceItems xs⟩
  | JSValue.obj _ =>
    ⟨'[' :: 'o' :: 'b' :: 'j' :: 'e' :: 'c' :: 't' :: ' ' :: 'O' :: 'b' :: 'j' :: 'e' :: 'c' :: 't' :: [']']⟩

/-- `Array.prototype.join(',')` with the element coercion of `String(...)`,
except that a null element joins as the empty string. -/
def jsCoerceItems : List JSValue → List Char
  | [] => []
  | [JSValue.null] => []
  | [x] => (jsCoerceString x).data
  | JSValue.null :: y :: r => ',' :: jsCoerceItems (y :: r)
  | x :: y :: r => (jsCoerceString x).data ++ ',' :: jsCoerceItems (y :: r)

end

/-- Element coercion inside `join`: null becomes the empty string. -/
def jsCoerceElem : JSValue → String
  | JSValue.null => ""
  | v => jsCoerceString v

/-- `Number(v)` (`none` models NaN; object-to-primitive coercion is not
modelled and conservatively yields NaN). -/
def jsCoerceNumber : JSValue → Option Int
  | JSValue.null => some 0
  | JSValue.bool b => some (if b then 1 else 0)
  | JSValue.num n => some n
  | JSValue.str s => if (jsTrim s).data.isEmpty then some 0 else jsStringToInt s
  | _ => none

/-- Whether a value is a JS boolean (`typeof v === 'boolean'`). -/
def JSValue.isBoolean : JSValue → Bool
  | JSValue.bool _ => true
  | _ => false

/-- Whether a value is a JS number. -/
def JSValue.isNumber : JSValue → Bool
  | JSValue.num _ => true
  | _ => false

/-- `normalizeJsonString`: parse and re-serialize compactly to cancel
formatting; unparsable text is merely trimmed. -/
def normalizeJsonString (value : String) : String :=
  if value.data.isEmpty then ""
  else
    match jsonParse value with
    | some v => ⟨printJson false 0 v⟩
    | none => jsTrim value

/-- `valuesEqual`: strict equality first, then per-type loose comparison. -/
def valuesEqual (current original : JSValue) (config : EntryFieldConfig) : Bool :=
  if jsStrictEq current original then true
  else if config.inputType = EntryFieldInputType.json then
    normalizeJsonString (jsCoerceString current) == normalizeJsonString (jsCoerceString original)
  else if current.isBoolean || original.isBoolean then
    jsTruthy current == jsTruthy original
  else if current.isNumber || original.isNumber then
    (match jsCoerceNumber current, jsCoerceNumber original with
     | some x, some y => x == y
     | _, _ => false)
  else jsCoerceString current == jsCoerceString original

/-- `String(num).padStart(4, '0')`-style year padding of `toISOString`. -/
def pad4 (n : Nat) : List Char :=
  List.replicate (4 - (natToChars n).length) '0' ++ natToChars n

/-- `new Date(...).toISOString()` on a civil tuple (timezone-free model,
seconds and milliseconds zero as in the component's minute-precision
strings). -/
def toISOStringFromTuple (t : DateTuple) : String :=
  ⟨pad4 t.year.toNat ++ '-' :: pad2 t.month ++ '-' :: pad2 t.day ++
    'T' :: pad2 t.hour ++ ':' :: pad2 t.minute ++
    ':' :: '0' :: '0' :: '.' :: '0' :: '0' :: '0' :: ['Z']⟩

/-- `parseJsonValue`: empty text gives `''`, parse failures fall back to the
original value (or the text when the original is null-ish). -/
def parseJsonValue (value : JSValue) (fallback : JSValue) : JSValue :=
  if (jsTrim (stringifyValue value)).data.isEmpty then JSValue.str ""
  else
    match jsonParse (jsTrim (stringifyValue value)) with
    | some j => j
    | none =>
      match fallback with
      | JSValue.null => JSValue.str (jsTrim (stringifyValue value))
      | _ => fallback

/-- `prepareValueForPayload`: the wire value per input type. -/
def prepareValueForPayload (value : JSValue) (config : EntryFieldConfig)
    (originalValue : JSValue) : JSValue :=
  match config.inputType with
  | EntryFieldInputType.boolean => toBoolean value
  | EntryFieldInputType.number =>
    (match toNumber value with
     | some n => JSValue.num n
     | none =>
       match value with
       | JSValue.str s => JSValue.str (jsTrim s)
       | _ => JSValue.str "")
  | EntryFieldInputType.date => JSValue.str (formatDateForInput value DateVariant.date)
  | EntryFieldInputType.datetime =>
    (if formatDateForInput value DateVariant.datetime = "" then JSValue.str ""
     else
       match jsDateParse (formatDateForInput value DateVariant.datetime) with
       | some t => JSValue.str (toISOStringFromTuple t)
       | none => JSValue.str "")
  | EntryFieldInputType.json => parseJsonValue value originalValue
  | _ =>
    (match value with
     | JSValue.str s => JSValue.str (jsTrim s)
     | _ => JSValue.str (jsTrim (stringifyValue value)))

/-- One form control with its field configuration, as produced by
`rebuildForm`: the control value, the detected input type, and the
disabled/read-only flag. -/
structure FieldState where
  key : String
  inputType : EntryFieldInputType
  readOnly : Bool
  controlValue : JSValue

/-- The `EntryFieldConfig` of a control. -/
def FieldState.config (f : FieldState) : EntryFieldConfig :=
  ⟨f.key, f.inputType, f.readOnly⟩

/-- `rebuildForm`: one control per non-hidden record key, with the detected
type, the read-only flag (which disables the control) and the prepared
control value. -/
def rebuildForm (record : List (String × JSValue)) : List FieldState :=
  record.filterMap (fun kv =>
    if shouldHideField kv.1 then none
    else
      some ⟨kv.1, detectFieldType kv.1 kv.2, isReadOnlyKey kv.1,
        prepareControlValue kv.2 (detectFieldType kv.1 kv.2)⟩)

/-- `original[key]`: property lookup; a missing property (`undefined`)
behaves as `null` in every function `buildPayload` applies to it. -/
def lookupRecord (record : List (String × JSValue)) (key : String) : JSValue :=
  match record.find? (fun kv => kv.1 == key) with
  | some kv => kv.2
  | none => JSValue.null

/-- `buildPayload`: skip disabled (read-only) controls, compare normalized
current and original values, and emit the wire value for changed fields. -/
def buildPayload (record : List (String × JSValue)) (fields : List FieldState) :
    List (String × JSValue) :=
  fields.filterMap (fun f =>
    if f.readOnly then none
    else
      if valuesEqual (normalizeValueForComparison f.controlValue f.config)
          (normalizeValueForComparison (lookupRecord record f.key) f.config) f.config then none
      else some (f.key, prepareValueForPayload f.controlValue f.config (lookupRecord record f.key)))

mutual

/-- Deep (structural) equality of JSON values, the "deep-equal" notion of
the specification. -/
def jsonEq : JSValue → JSValue → Bool
  | JSValue.null, JSValue.null => true
  | JSValue.bool a, JSValue.bool b => a == b
  | JSValue.num a, JSValue.num b => a == b
  | JSValue.str a, JSValue.str b => a == b
  | JSValue.arr xs, JSValue.arr ys => jsonEqItems xs ys
  | JSValue.obj fs, JSValue.obj gs => jsonEqFields fs gs
  | _, _ => false

/-- Deep equality of JSON arrays, element by element. -/
def jsonEqItems : List JSValue → List JSValue → Bool
  | [], [] => true
  | x :: xs, y :: ys => jsonEq x y && jsonEqItems xs ys
  | _, _ => false

/-- Deep equality of JSON objects, member by member. -/
def jsonEqFields : List (String × JSValue) → List (String × JSValue) → Bool
  | [], [] => true
  | (k1, v1) :: fs, (k2, v2) :: gs => k1 == k2 && jsonEq v1 v2 && jsonEqFields fs gs
  | _, _ => false

end

/-- The visibility levels (`VisibilityLevel` in `visibility-level.type.ts`). -/
inductive VisibilityLevel where
  | admin
  | user
deriving DecidableEq

/-- Truthiness of a nullable string field such as `currentType` /
`currentId` (`null` and `''` are falsy). -/
def optStrTruthy : Option String → Bool
  | none => false
  | some s => !s.data.isEmpty

/-- `Map.prototype.set` on an association list: overwrite in place or
append. -/
def mapSet {α : Type} (m : List (String × α)) (k : String) (v : α) : List (String × α) :=
  if (m.find? (fun kv => kv.1 == k)).isSome then
    m.map (fun kv => if kv.1 == k then (k, v) else kv)
  else m ++ [(k, v)]

/-- The component state read by `save()`. -/
structure SaveContext where
  canEditEntries : Bool
  currentType : Option String
  currentId : Option String
  formInvalid : Bool
  record : List (String × JSValue)
  fields : List FieldState
  canEditVisibility : Bool
  visibilityValue : VisibilityLevel
  currentVisibilityLevel : VisibilityLevel

/-- The wire encoding of a visibility level. -/
def visibilityToStr : VisibilityLevel → String
  | VisibilityLevel.admin => "admin"
  | VisibilityLevel.user => "user"

/-- `appendVisibilityToPayload`: add the desired level when the user may
edit visibility and it differs from the current level. -/
def appendVisibilityToPayload (ctx : SaveContext) (payload : List (String × JSValue)) :
    List (String × JSValue) :=
  if !ctx.canEditVisibility then payload
  else if ctx.visibilityValue ≠ ctx.currentVisibilityLevel then
    mapSet payload "visibility_level" (JSValue.str (visibilityToStr ctx.visibilityValue))
  else payload

/-- The observable outcome of `save()`: an early guard return, the
no-changes status path (no network write), or a PATCH request. -/
inductive SaveAction where
  | blocked
  | noChanges
  | patch (entryType : String) (id : String) (payload : List (String × JSValue))

/-- `save()`: guards, payload construction (`buildPayload` plus the
visibility append), then either the no-changes message or the PATCH. -/
def save (ctx : SaveContext) : SaveAction :=
  if !ctx.canEditEntries || !optStrTruthy ctx.currentType || !optStrTruthy ctx.currentId ||
      ctx.formInvalid then SaveAction.blocked
  else
    let payload := appendVisibilityToPayload ctx (buildPayload ctx.record ctx.fields)
    if payload.length = 0 then SaveAction.noChanges
    else
      SaveAction.patch ((ctx.currentType).getD "") ((ctx.currentId).getD "") payload

/-- A JavaScript number as seen by `clampLimit`: NaN, the infinities, or a
finite value (modelled as a rational). -/
inductive JSNumber where
  | nan
  | posInf
  | negInf
  | finite (q : ℚ)

/-- `Math.trunc`: round toward zero. -/
def jsTrunc (q : ℚ) : Int := if 0 ≤ q then ⌊q⌋ else ⌈q⌉

/-- `clampLimit(value, fallback)`: non-numbers and non-finite numbers give
the fallback; finite values are truncated and clamped into `[0, 50]`. -/
def clampLimit (value : Option JSNumber) (fallback : Int) : Int :=
  match value with
  | some (JSNumber.finite q) => max 0 (min 50 (jsTrunc q))
  | _ => fallback

/-- The resolved per-section limits of a dossier request. -/
structure PersonDossierLimits where
  profiles : Int
  notes : Int
  activities : Int
deriving DecidableEq

/-- `defaultLimits` of `PersonDossierService`. -/
def defaultLimits : PersonDossierLimits := ⟨5, 5, 5⟩

/-- A `Partial<PersonDossierLimits>` argument: each member may be absent,
`null`, or any JS number. -/
structure PartialLimits where
  profiles : Option JSNumber
  notes : Option JSNumber
  activities : Option JSNumber

/-- `resolveLimits`. -/
def resolveLimits (part : PartialLimits) : PersonDossierLimits :=
  ⟨clampLimit part.profiles defaultLimits.profiles,
   clampLimit part.notes defaultLimits.notes,
   clampLimit part.activities defaultLimits.activities⟩

/-- A dossier cache entry (`CachedDossier`). -/
structure CachedDossier where
  etag : Option String
  data : JSValue

/-- A PDF cache entry (`CachedPdf`); the blob is abstracted to its bytes. -/
structure CachedPdf where
  etag : Option String
  blob : List Nat
  filename : String

/-- A dossier snapshot returned to callers (`PersonDossierSnapshot`). -/
structure DossierSnapshot where
  data : JSValue
  etag : Option String
  fromCache : Bool

/-- An HTTP response as consumed by `handleDossierResponse`. -/
structure HttpResp where
  status : Nat
  body : Option JSValue
  etagHeader : Option String

/-- `normalizePersonId` (string inputs; the numeric branch stringifies a
finite number and is not exercised by the dossier service call sites). -/
def normalizePersonId (personId : Option String) : Option String :=
  match personId with
  | some s => if 0 < (jsTrim s).data.length then some (jsTrim s) else none
  | none => none

/-- `buildHeaders`: the `If-None-Match` header value, or `none` when there
is no usable etag or a forced refresh. -/
def buildHeaders (etag : Option String) (force : Bool) : Option String :=
  match etag with
  | none => none
  | some e => if e.data.isEmpty || force then none else some e

/-- `buildCacheKey`. -/
def buildCacheKey (personId : String) (limits : PersonDossierLimits) : String :=
  personId ++ "::" ++ intToString limits.profiles ++ ":" ++ intToString limits.notes ++
    ":" ++ intToString limits.activities

/-- The write path of `handleDossierResponse` once the effective body is
known: an empty (falsy or missing) body throws, otherwise the snapshot is
returned and cached. -/
def handleDossierBody (resp : HttpResp) (cacheKey : String)
    (cache : List (String × CachedDossier)) (body? : Option JSValue) :
    Except String (DossierSnapshot × List (String × CachedDossier)) :=
  match body? with
  | none => Except.error "Dossier payload is empty."
  | some b =>
    if jsFalsy b then Except.error "Dossier payload is empty."
    else
      Except.ok (⟨b, resp.etagHeader, false⟩, mapSet cache cacheKey ⟨resp.etagHeader, b⟩)

/-- `handleDossierResponse`: a 304 with a cache entry replays the cached
data without writing; otherwise the response body (falling back to the
cached data) is stored under the cache key. -/
def handleDossierResponse (resp : HttpResp) (cacheKey : String)
    (cached : Option CachedDossier) (cache : List (String × CachedDossier)) :
    Except String (DossierSnapshot × List (String × CachedDossier)) :=
  match cached with
  | some c =>
    if resp.status = 304 then Except.ok (⟨c.data, c.etag, true⟩, cache)
    else handleDossierBody resp cacheKey cache (some (resp.body.getD c.data))
  | none => handleDossierBody resp cacheKey cache resp.body

/-- `fetchDossier`, with the HTTP exchange made explicit: given the cache
state and the response the server would produce, it returns the
`If-None-Match` header value sent (`none` = unconditional request), the
snapshot, and the new cache state. -/
def fetchDossier (cache : List (String × CachedDossier)) (personId : String)
    (limits : PartialLimits) (force : Bool) (resp : HttpResp) :
    Except String (Option String × DossierSnapshot × List (String × CachedDossier)) :=
  match normalizePersonId (some personId) with
  | none => Except.error "Person ID is required for dossier view."
  | some nid =>
    let cacheKey := buildCacheKey nid (resolveLimits limits)
    let cached := (cache.find? (fun kv => kv.1 == cacheKey)).map (fun kv => kv.2)
    let headers := buildHeaders (match cached with | some c => c.etag | none => none) force
    match handleDossierResponse resp cacheKey cached cache with
    | Except.error e => Except.error e
    | Except.ok (snap, cache2) => Except.ok (headers, snap, cache2)

/-- `clearCache`: no argument (or an empty string, which is falsy) clears
both caches; otherwise only keys starting with the normalized id followed
by `::` are dropped, from both caches. -/
def clearCache (cache : List (String × CachedDossier))
    (pdfCache : List (String × CachedPdf)) (personId : Option String) :
    List (String × CachedDossier) × List (String × CachedPdf) :=
  match personId with
  | none => ([], [])
  | some pid =>
    if pid.data.isEmpty then ([], [])
    else
      match normalizePersonId (some pid) with
      | none => (cache, pdfCache)
      | some nid =>
        (cache.filter (fun kv => !(jsStartsWith kv.1 (nid ++ "::"))),
         pdfCache.filter (fun kv => !(jsStartsWith kv.1 (nid ++ "::"))))

/-- The HTTP methods of the shared API client (`HttpMethod`). -/
inductive HttpMethod where
  | GET
  | POST
  | PUT
  | PATCH
  | DELETE
deriving DecidableEq

/-- The permission checks `ApiService` reads from `AuthService`. -/
structure AuthState where
  canDeleteEntries : Bool
  canEditEntries : Bool

/-- Strip the trailing `/`-run of the base URL (`replace(/\/+$/, '')`). -/
def stripTrailingSlashes (s : String) : String :=
  ⟨(s.data.reverse.dropWhile (fun c => c == '/')).reverse⟩

/-- `ApiService.buildUrl`. -/
def buildUrl (baseUrl endpoint : String) : String :=
  if (jsTrim endpoint).data.isEmpty then stripTrailingSlashes baseUrl
  else if jsStartsWith (jsTrim endpoint) "/" then
    stripTrailingSlashes baseUrl ++ jsTrim endpoint
  else stripTrailingSlashes baseUrl ++ "/" ++ jsTrim endpoint

/-- A constructed HTTP request (method and URL; body, headers and params
pass through unchanged and are omitted). -/
structure ApiRequest where
  method : HttpMethod
  url : String
deriving DecidableEq

/-- `ApiService.request`: the client-side role checks run before the URL
and request are built; a failing check raises the local permission error
and no request value is ever constructed. -/
def request (auth : AuthState) (baseUrl : String) (method : HttpMethod)
    (endpoint : String) : Except String ApiRequest :=
  if method = HttpMethod.DELETE ∧ auth.canDeleteEntries = false then
    Except.error "Insufficient permissions for this operation."
  else if method ≠ HttpMethod.GET ∧ method ≠ HttpMethod.DELETE ∧
      auth.canEditEntries = false then
    Except.error "Insufficient permissions for this operation."
  else Except.ok ⟨method, buildUrl baseUrl endpoint⟩

/-! ### Properties of the embedded code -/

theorem dropWhile_ws_dropWhile_ws (l : List Char) :
    (l.dropWhile isJsWs).dropWhile isJsWs = l.dropWhile isJsWs := by
  have h := List.head?_dropWhile_not isJsWs l
  cases hd : (l.dropWhile isJsWs) with
  | nil => simp
  | cons a as =>
    rw [hd] at h
    simp only [List.head?_cons] at h
    simp [List.dropWhile_cons, h]

theorem dropWhile_eq_self_of_head_false {l : List Char}
    (h : ∀ c, l.head? = some c → isJsWs c = false) :
    l.dropWhile isJsWs = l := by
  cases l with
  | nil => rfl
  | cons a as => simp [List.dropWhile_cons, h a rfl]

theorem trimChars_nonws (cs : List Char) (h : ∀ c ∈ cs, isJsWs c = false) :
    trimChars cs = cs := by
  unfold trimChars
  have h1 : cs.dropWhile isJsWs = cs :=
    dropWhile_eq_self_of_head_false (fun c hc => h c (List.mem_of_mem_head? hc))
  have h2 : cs.reverse.dropWhile isJsWs = cs.reverse :=
    dropWhile_eq_self_of_head_false
      (fun c hc => h c (List.mem_reverse.mp (List.mem_of_mem_head? hc)))
  rw [h1, h2, List.reverse_reverse]

theorem head?_trimChars_not (cs : List Char) (c : Char)
    (h : (trimChars cs).head? = some c) : isJsWs c = false := by
  unfold trimChars at h
  have hpre : ((cs.dropWhile isJsWs).reverse.dropWhile isJsWs).reverse <+: cs.dropWhile isJsWs := by
    have hsuf : (cs.dropWhile isJsWs).reverse.dropWhile isJsWs <:+ (cs.dropWhile isJsWs).reverse :=
      List.dropWhile_suffix isJsWs
    have := List.reverse_prefix.mpr hsuf
    simpa using this
  rcases hpre with ⟨t, ht⟩
  have hAhead : (cs.dropWhile isJsWs).head? = some c := by
    cases hbr : ((cs.dropWhile isJsWs).reverse.dropWhile isJsWs).reverse with
    | nil => rw [hbr] at h; simp at h
    | cons b bs =>
      rw [hbr] at h ht
      simp only [List.head?_cons, Option.some.injEq] at h
      subst h
      rw [← ht]
      simp
  have hnot := List.head?_dropWhile_not isJsWs cs
  rw [hAhead] at hnot
  simpa using hnot

theorem trimChars_idem (cs : List Char) : trimChars (trimChars cs) = trimChars cs := by
  conv_lhs => rw [trimChars]
  have step1 : (trimChars cs).dropWhile isJsWs = trimChars cs :=
    dropWhile_eq_self_of_head_false (fun c hc => head?_trimChars_not cs c hc)
  rw [step1]
  have step2 : (trimChars cs).reverse.dropWhile isJsWs = (trimChars cs).reverse := by
    unfold trimChars
    rw [List.reverse_reverse]
    exact dropWhile_ws_dropWhile_ws _
  rw [step2, List.reverse_reverse]

theorem jsTrim_idem (s : String) : jsTrim (jsTrim s) = jsTrim s := by
  unfold jsTrim
  exact congrArg String.mk (trimChars_idem s.data)

theorem jsTrim_nonws (s : String) (h : ∀ c ∈ s.data, isJsWs c = false) :
    jsTrim s = s := by
  unfold jsTrim
  cases s with
  | mk data => exact congrArg String.mk (trimChars_nonws data h)

theorem natDigitsAux_eq (fuel : Nat) : ∀ n, n ≤ fuel → natDigitsAux fuel n = Nat.digits 10 n := by
  induction fuel with
  | zero =>
    intro n h
    interval_cases n
    simp [natDigitsAux]
  | succ fuel ih =>
    intro n h
    by_cases hn : n = 0
    · subst hn
      simp [natDigitsAux]
    · rw [natDigitsAux, if_neg hn]
      rw [ih (n / 10) (by omega)]
      rw [Nat.digits_def' (by norm_num : (1 : Nat) < 10) (Nat.pos_of_ne_zero hn)]

theorem natDigits_eq (n : Nat) : natDigits n = Nat.digits 10 n :=
  natDigitsAux_eq n n le_rfl

theorem digVal_digCh {d : Nat} (h : d < 10) : digVal (digCh d) = d := by
  interval_cases d <;> decide

theorem isDig_digCh {d : Nat} (h : d < 10) : isDig (digCh d) = true := by
  interval_cases d <;> decide

theorem isDig_not_ws {c : Char} (h : isDig c = true) : isJsWs c = false := by
  unfold isDig at h
  unfold isJsWs
  simp only [Bool.and_eq_true, decide_eq_true_eq] at h
  simp only [Bool.or_eq_false_iff, beq_eq_false_iff_ne, ne_eq]
  omega

theorem natToChars_ne_nil (n : Nat) : natToChars n ≠ [] := by
  unfold natToChars
  split
  · simp
  · rw [natDigits_eq]
    simp [Nat.digits_ne_nil_iff_ne_zero, *]

theorem natToChars_all_dig (n : Nat) : ∀ c ∈ natToChars n, isDig c = true := by
  unfold natToChars
  split
  · intro c hc
    simp only [List.mem_singleton] at hc
    subst hc
    decide
  · intro c hc
    rw [natDigits_eq] at hc
    simp only [List.mem_reverse, List.mem_map] at hc
    rcases hc with ⟨d, hd, rfl⟩
    exact isDig_digCh (Nat.digits_lt_base (by norm_num) hd)

theorem digitsVal_natToChars (n : Nat) : digitsVal (natToChars n) = n := by
  unfold natToChars
  split
  · subst ‹n = 0›
    decide
  · unfold digitsVal
    rw [natDigits_eq, List.map_reverse, List.reverse_reverse, List.map_map]
    have hmap : (Nat.digits 10 n).map (digVal ∘ digCh) = (Nat.digits 10 n).map id := by
      apply List.map_congr_left
      intro d hd
      exact digVal_digCh (Nat.digits_lt_base (by norm_num) hd)
    rw [hmap, List.map_id, Nat.ofDigits_digits]

theorem parseDigits_natToChars (n : Nat) : parseDigits (natToChars n) = some n := by
  unfold parseDigits
  rw [if_pos ⟨natToChars_ne_nil n, List.all_eq_true.mpr (natToChars_all_dig n)⟩]
  rw [digitsVal_natToChars]

theorem isDig_ne_minus {c : Char} (h : isDig c = true) : c ≠ '-' := by
  intro hc
  subst hc
  simp [isDig] at h

theorem isDig_ne_plus {c : Char} (h : isDig c = true) : c ≠ '+' := by
  intro hc
  subst hc
  simp [isDig] at h

theorem data_mk (cs : List Char) : (String.mk cs).data = cs := rfl

theorem jsTrim_natToChars (n : Nat) :
    jsTrim (String.mk (natToChars n)) = String.mk (natToChars n) := by
  apply jsTrim_nonws
  intro c hc
  exact isDig_not_ws (natToChars_all_dig n c hc)

theorem jsTrim_minus_natToChars (n : Nat) :
    jsTrim ("-" ++ String.mk (natToChars n)) = "-" ++ String.mk (natToChars n) := by
  apply jsTrim_nonws
  intro c hc
  have hdata : ("-" ++ String.mk (natToChars n)).data = '-' :: natToChars n := rfl
  rw [hdata] at hc
  rcases List.mem_cons.mp hc with rfl | hmem
  · decide
  · exact isDig_not_ws (natToChars_all_dig n c hmem)

theorem jsStringToInt_intToString (n : Int) : jsStringToInt (intToString n) = some n := by
  unfold intToString
  split
  case isTrue hneg =>
    unfold jsStringToInt
    rw [jsTrim_minus_natToChars]
    have hdata : ("-" ++ String.mk (natToChars n.natAbs)).data = '-' :: natToChars n.natAbs := rfl
    rw [hdata]
    simp only [List.head?_cons, List.tail_cons, if_true]
    rw [parseDigits_natToChars]
    simp only [Option.map_some', Int.ofNat_eq_coe]
    congr 1
    omega
  case isFalse hpos =>
    unfold jsStringToInt
    rw [jsTrim_natToChars, data_mk]
    obtain ⟨c, rest, hcr⟩ : ∃ c rest, natToChars n.toNat = c :: rest := by
      cases h : natToChars n.toNat with
      | nil => exact absurd h (natToChars_ne_nil _)
      | cons c rest => exact ⟨c, rest, rfl⟩
    have hdig : isDig c = true := by
      apply natToChars_all_dig
      rw [hcr]
      exact List.mem_cons_self c rest
    rw [hcr]
    simp only [List.head?_cons]
    rw [if_neg (by simpa using isDig_ne_minus hdig), if_neg (by simpa using isDig_ne_plus hdig)]
    rw [← hcr, parseDigits_natToChars]
    simp only [Option.map_some', Int.ofNat_eq_coe]
    congr 1
    omega

theorem printJson_length_pos (pretty : Bool) (ind : Nat) (v : JSValue) :
    1 ≤ (printJson pretty ind v).length := by
  cases v with
  | null => simp [printJson]
  | bool b => cases b <;> simp [printJson]
  | num n =>
    have h : (intToString n).data ≠ [] := by
      unfold intToString
      split
      · intro hc
        have : ('-' :: natToChars n.natAbs) = [] := hc
        simp at this
      · exact natToChars_ne_nil n.toNat
    simp only [printJson]
    cases hd : (intToString n).data with
    | nil => exact absurd hd h
    | cons a as => simp [hd]
  | str s => simp [printJson, quoteString]
  | arr xs =>
    cases xs with
    | nil => simp [printJson]
    | cons x rest => simp only [printJson]; split <;> simp
  | obj fs =>
    cases fs with
    | nil => simp [printJson]
    | cons f rest => simp only [printJson]; split <;> simp

mutual

theorem jsonNeed_le (pretty : Bool) (ind : Nat) :
    (v : JSValue) → jsonNeed v ≤ (printJson pretty ind v).length + 1
  | .null => by simp [jsonNeed, printJson]
  | .bool b => by cases b <;> simp [jsonNeed, printJson]
  | .num n => by simp [jsonNeed]
  | .str s => by simp [jsonNeed]
  | .arr xs => by
    match xs with
    | [] => simp [jsonNeed, needItems, printJson]
    | x :: rest =>
      have h := needItems_le pretty (ind + 2) (x :: rest)
      simp only [jsonNeed, printJson]
      split <;> simp only [List.length_cons, List.length_append] <;> omega
  | .obj fs => by
    match fs with
    | [] => simp [jsonNeed, needFields, printJson]
    | f :: rest =>
      have h := needFields_le pretty (ind + 2) (f :: rest)
      simp only [jsonNeed, printJson]
      split <;> simp only [List.length_cons, List.length_append] <;> omega

theorem needItems_le (pretty : Bool) (ind : Nat) :
    (xs : List JSValue) → needItems xs ≤ (printItems pretty ind xs).length + 2
  | [] => by simp [needItems]
  | [x] => by
    have h := jsonNeed_le pretty ind x
    simp only [needItems, printItems, List.length_append]
    omega
  | x :: y :: rest => by
    have h1 := jsonNeed_le pretty ind x
    have h2 := needItems_le pretty ind (y :: rest)
    have h3 := printJson_length_pos pretty ind x
    simp only [needItems, printItems, List.length_append]
    have hsep : 1 ≤ (if pretty then [',', nlCh] else [',']).length := by
      split <;> simp
    omega

theorem needFields_le (pretty : Bool) (ind : Nat) :
    (fs : List (String × JSValue)) → needFields fs ≤ (printFields pretty ind fs).length + 2
  | [] => by simp [needFields]
  | [(k, v)] => by
    have h := jsonNeed_le pretty ind v
    simp only [needFields, printFields, List.length_append]
    omega
  | (k, v) :: g :: rest => by
    have h1 := jsonNeed_le pretty ind v
    have h2 := needFields_le pretty ind (g :: rest)
    have h3 := printJson_length_pos pretty ind v
    simp only [needFields, printFields, List.length_append]
    have hsep : 1 ≤ (if pretty then [',', nlCh] else [',']).length := by
      split <;> simp
    omega

end

theorem hexVal_hexDigCh {d : Nat} (h : d < 16) : hexVal (hexDigCh d) = some d := by
  interval_cases d <;> decide

theorem parseStrChars_cons_quote (rest : List Char) :
    parseStrChars (quoteCh :: rest) = some ([], rest) := by
  rcases rest with _ | ⟨e, _ | ⟨a, r⟩⟩
  · decide
  · by_cases he : e = 'u' <;> simp [parseStrChars, quoteCh, backslashCh, he]
  · by_cases he : e = 'u'
    · subst he
      rcases r with _ | ⟨b, _ | ⟨c3, _ | ⟨d, r2⟩⟩⟩ <;> simp [parseStrChars, quoteCh, backslashCh]
    · simp [parseStrChars, quoteCh, backslashCh, he]

theorem parseStrChars_cons_normal (c : Char) (rest : List Char)
    (h1 : c ≠ quoteCh) (h2 : c ≠ backslashCh) (h3 : 32 ≤ c.toNat) :
    parseStrChars (c :: rest) = (parseStrChars rest).map (fun p => (c :: p.1, p.2)) := by
  have h3' : ¬ c.toNat < 32 := by omega
  rcases rest with _ | ⟨e, _ | ⟨a, r⟩⟩
  · simp [parseStrChars, h1, h2, h3']
  · by_cases he : e = 'u' <;> simp [parseStrChars, h1, h2, h3', he]
  · by_cases he : e = 'u'
    · subst he
      rcases r with _ | ⟨b, _ | ⟨c3, _ | ⟨d, r2⟩⟩⟩ <;> simp [parseStrChars, h1, h2, h3']
    · simp [parseStrChars, h1, h2, h3', he]

theorem skipWs_cons_nonws (c : Char) (cs : List Char) (h : isJsWs c = false) :
    skipWs (c :: cs) = c :: cs := by
  simp [skipWs, List.dropWhile_cons, h]

theorem skipWs_append_ws (w : List Char) (cs : List Char)
    (h : ∀ c ∈ w, isJsWs c = true) : skipWs (w ++ cs) = skipWs cs := by
  simp [skipWs, List.dropWhile_append_of_pos h]

theorem skipWs_indent (n : Nat) (cs : List Char) :
    skipWs (indentChars n ++ cs) = skipWs cs := by
  apply skipWs_append_ws
  intro c hc
  rw [List.eq_of_mem_replicate hc]
  decide

theorem skipWs_nl (cs : List Char) : skipWs (nlCh :: cs) = skipWs cs := by
  have : (nlCh :: cs) = [nlCh] ++ cs := rfl
  rw [this]
  apply skipWs_append_ws
  intro c hc
  simp only [List.mem_singleton] at hc
  subst hc
  decide

theorem skipWs_skipWs (cs : List Char) : skipWs (skipWs cs) = skipWs cs :=
  dropWhile_ws_dropWhile_ws cs

theorem parseJson_congr (fuel : Nat) {a b : List Char} (h : skipWs a = skipWs b) :
    parseJson fuel a = parseJson fuel b := by
  cases fuel with
  | zero => rfl
  | succ fuel =>
    unfold parseJson
    rw [h]

theorem parseFields_congr (fuel : Nat) {a b : List Char} (h : skipWs a = skipWs b) :
    parseFields fuel a = parseFields fuel b := by
  cases fuel with
  | zero => rfl
  | succ fuel =>
    unfold parseFields
    rw [h]

theorem parseItems_congr (fuel : Nat) {a b : List Char} (h : skipWs a = skipWs b) :
    parseItems fuel a = parseItems fuel b := by
  cases fuel with
  | zero => rfl
  | succ fuel =>
    unfold parseItems
    rw [parseJson_congr fuel h]

/-- Decoding the escaped body of a printed string literal recovers the
original characters and stops at the closing quote. -/
theorem parseStrChars_roundtrip (cs : List Char) (rest : List Char) :
    parseStrChars ((cs.map escChar).flatten ++ quoteCh :: rest) = some (cs, rest) := by
  induction cs with
  | nil => simpa using parseStrChars_cons_quote rest
  | cons c cs ih =>
    have ih' : parseStrChars ((cs.map escChar).flatten ++ Char.ofNat 34 :: rest) = some (cs, rest) := ih
    simp only [List.map_cons, List.flatten_cons, List.append_assoc]
    by_cases hq : c = quoteCh
    · subst hq
      rw [show escChar quoteCh = [backslashCh, quoteCh] by decide]
      simp [parseStrChars, backslashCh, quoteCh, ih']
    · by_cases hb : c = backslashCh
      · subst hb
        rw [show escChar backslashCh = [backslashCh, backslashCh] by decide]
        simp [parseStrChars, backslashCh, quoteCh, ih']
      · by_cases h8 : c.toNat = 8
        · rw [show escChar c = [backslashCh, 'b'] by simp [escChar, hq, hb, h8]]
          have hc : c = Char.ofNat 8 := by rw [← h8, Char.ofNat_toNat]
          simp [parseStrChars, backslashCh, quoteCh, ih', hc]
        · by_cases h9 : c.toNat = 9
          · rw [show escChar c = [backslashCh, 't'] by simp [escChar, hq, hb, h8, h9]]
            have hc : c = Char.ofNat 9 := by rw [← h9, Char.ofNat_toNat]
            simp [parseStrChars, backslashCh, quoteCh, ih', hc]
          · by_cases h10 : c.toNat = 10
            · rw [show escChar c = [backslashCh, 'n'] by simp [escChar, hq, hb, h8, h9, h10]]
              have hc : c = Char.ofNat 10 := by rw [← h10, Char.ofNat_toNat]
              simp [parseStrChars, backslashCh, quoteCh, ih', hc]
            · by_cases h12 : c.toNat = 12
              · rw [show escChar c = [backslashCh, 'f'] by simp [escChar, hq, hb, h8, h9, h10, h12]]
                have hc : c = Char.ofNat 12 := by rw [← h12, Char.ofNat_toNat]
                simp [parseStrChars, backslashCh, quoteCh, ih', hc]
              · by_cases h13 : c.toNat = 13
                · rw [show escChar c = [backslashCh, 'r'] by
                    simp [escChar, hq, hb, h8, h9, h10, h12, h13]]
                  have hc : c = Char.ofNat 13 := by rw [← h13, Char.ofNat_toNat]
                  simp [parseStrChars, backslashCh, quoteCh, ih', hc]
                · by_cases hlt : c.toNat < 32
                  · rw [show escChar c
                        = [backslashCh, 'u', '0', '0', hexDigCh (c.toNat / 16), hexDigCh (c.toNat % 16)] by
                      simp [escChar, hq, hb, h8, h9, h10, h12, h13, hlt]]
                    have hhi : c.toNat / 16 < 16 := by omega
                    have hlo : c.toNat % 16 < 16 := by omega
                    simp [parseStrChars, hexVal_hexDigCh hhi, hexVal_hexDigCh hlo, ih',
                      backslashCh, quoteCh,
                      show hexVal '0' = some 0 by decide]
                    constructor
                    · omega
                    · rw [show 16 * (c.toNat / 16) + c.toNat % 16 = c.toNat by omega, Char.ofNat_toNat]
                  · rw [show escChar c = [c] by simp [escChar, hq, hb, h8, h9, h10, h12, h13, hlt]]
                    have hnorm := parseStrChars_cons_normal c ((cs.map escChar).flatten ++ quoteCh :: rest)
                      hq hb (by omega)
                    simp only [List.singleton_append]
                    rw [hnorm, ih]
                    rfl

theorem takeWhile_dig_nil {rest : List Char}
    (h : ∀ c, rest.head? = some c → isDig c = false) :
    rest.takeWhile isDig = [] := by
  cases rest with
  | nil => rfl
  | cons a as => simp [List.takeWhile_cons, h a rfl]

theorem dropWhile_dig_self {rest : List Char}
    (h : ∀ c, rest.head? = some c → isDig c = false) :
    rest.dropWhile isDig = rest := by
  cases rest with
  | nil => rfl
  | cons a as => simp [List.dropWhile_cons, h a rfl]

theorem takeWhile_dig_printed (m : Nat) (rest : List Char)
    (h : ∀ c, rest.head? = some c → isDig c = false) :
    (natToChars m ++ rest).takeWhile isDig = natToChars m := by
  rw [List.takeWhile_append_of_pos (natToChars_all_dig m), takeWhile_dig_nil h,
    List.append_nil]

theorem dropWhile_dig_printed (m : Nat) (rest : List Char)
    (h : ∀ c, rest.head? = some c → isDig c = false) :
    (natToChars m ++ rest).dropWhile isDig = rest := by
  rw [List.dropWhile_append_of_pos (natToChars_all_dig m), dropWhile_dig_self h]

theorem parseNumToken_roundtrip (n : Int) (rest : List Char)
    (hrest : ∀ c, rest.head? = some c → isDig c = false) :
    parseNumToken ((intToString n).data ++ rest) = some (n, rest) := by
  unfold intToString
  split
  case isTrue hneg =>
    have hdata : ("-" ++ String.mk (natToChars n.natAbs)).data = '-' :: natToChars n.natAbs := rfl
    rw [hdata]
    unfold parseNumToken
    simp only [List.cons_append, List.head?_cons, List.tail_cons, if_true]
    rw [takeWhile_dig_printed _ _ hrest, dropWhile_dig_printed _ _ hrest]
    rw [if_neg (by simp [natToChars_ne_nil])]
    rw [digitsVal_natToChars]
    have hval : -(Int.ofNat n.natAbs) = n := by
      simp only [Int.ofNat_eq_coe]
      omega
    rw [hval]
  case isFalse hpos =>
    rw [data_mk]
    obtain ⟨c, cs, hcr⟩ : ∃ c cs, natToChars n.toNat = c :: cs := by
      cases h : natToChars n.toNat with
      | nil => exact absurd h (natToChars_ne_nil _)
      | cons c cs => exact ⟨c, cs, rfl⟩
    have hdig : isDig c = true := by
      apply natToChars_all_dig
      rw [hcr]
      exact List.mem_cons_self c cs
    unfold parseNumToken
    rw [if_neg (by
      rw [hcr]
      simp only [List.cons_append, List.head?_cons, Option.some.injEq]
      simpa using isDig_ne_minus hdig)]
    rw [takeWhile_dig_printed _ _ hrest, dropWhile_dig_printed _ _ hrest]
    rw [if_neg (by simp [natToChars_ne_nil])]
    rw [digitsVal_natToChars]
    have hval : Int.ofNat n.toNat = n := by
      simp only [Int.ofNat_eq_coe]
      omega
    rw [hval]

theorem ws_not_dig {c : Char} (h : isJsWs c = true) : isDig c = false := by
  cases hd : isDig c with
  | false => rfl
  | true => rw [isDig_not_ws hd] at h; exact absurd h (by simp)

theorem notDigitHead_ws_append {w : List Char} {c : Char} (rest : List Char)
    (hw : ∀ x ∈ w, isJsWs x = true) (hc : isDig c = false) :
    NotDigitHead (w ++ c :: rest) := by
  intro x hx
  cases w with
  | nil => simp only [List.nil_append, List.head?_cons, Option.some.injEq] at hx; rwa [← hx]
  | cons a as =>
    simp only [List.cons_append, List.head?_cons, Option.some.injEq] at hx
    rw [← hx]
    exact ws_not_dig (hw a (List.mem_cons_self a as))

theorem printJson_head_spec (pretty : Bool) (ind : Nat) (v : JSValue) :
    ∃ c t, printJson pretty ind v = c :: t ∧ isJsWs c = false ∧ c ≠ ']' := by
  cases v with
  | null => exact ⟨'n', _, rfl, by decide, by decide⟩
  | bool b =>
    cases b
    · exact ⟨'f', _, rfl, by decide, by decide⟩
    · exact ⟨'t', _, rfl, by decide, by decide⟩
  | num n =>
    simp only [printJson]
    unfold intToString
    split
    · exact ⟨'-', _, rfl, by decide, by decide⟩
    · obtain ⟨c, cs, hcr⟩ : ∃ c cs, natToChars n.toNat = c :: cs := by
        cases h : natToChars n.toNat with
        | nil => exact absurd h (natToChars_ne_nil _)
        | cons c cs => exact ⟨c, cs, rfl⟩
      have hdig : isDig c = true := by
        apply natToChars_all_dig
        rw [hcr]
        exact List.mem_cons_self c cs
      refine ⟨c, cs, by rw [data_mk, hcr], isDig_not_ws hdig, ?_⟩
      intro hc
      subst hc
      simp [isDig] at hdig
  | str s => exact ⟨quoteCh, _, rfl, by decide, by decide⟩
  | arr xs =>
    cases xs with
    | nil => exact ⟨'[', _, rfl, by decide, by decide⟩
    | cons x r =>
      simp only [printJson]
      split
      · exact ⟨'[', _, rfl, by decide, by decide⟩
      · exact ⟨'[', _, rfl, by decide, by decide⟩
  | obj fs =>
    cases fs with
    | nil => exact ⟨lcurlyCh, _, rfl, by decide, by decide⟩
    | cons f r =>
      simp only [printJson]
      split
      · exact ⟨lcurlyCh, _, rfl, by decide, by decide⟩
      · exact ⟨lcurlyCh, _, rfl, by decide, by decide⟩

theorem skipWs_ws_append_cons {w : List Char} {c : Char} (rest : List Char)
    (hw : ∀ x ∈ w, isJsWs x = true) (hc : isJsWs c = false) :
    skipWs (w ++ c :: rest) = c :: rest := by
  rw [skipWs_append_ws _ _ hw, skipWs_cons_nonws c rest hc]

theorem jsonNeed_pos (v : JSValue) : 1 ≤ jsonNeed v := by
  cases v <;> simp [jsonNeed]

theorem needItems_pos (xs : List JSValue) : 1 ≤ needItems xs := by
  match xs with
  | [] => simp [needItems]
  | [x] => simp [needItems]
  | x :: y :: r => simp [needItems]

theorem needFields_pos (fs : List (String × JSValue)) : 1 ≤ needFields fs := by
  match fs with
  | [] => simp [needFields]
  | [(k, v)] => simp [needFields]
  | (k, v) :: g :: r => simp [needFields]

theorem indentChars_ws (n : Nat) : ∀ x ∈ indentChars n, isJsWs x = true := by
  intro x hx
  rw [List.eq_of_mem_replicate hx]
  decide

theorem itemIndent_ws (p : Bool) (n : Nat) :
    ∀ x ∈ (if p then indentChars n else []), isJsWs x = true := by
  split
  · exact indentChars_ws n
  · intro x hx
    simp at hx

theorem printItems_cons_decomp (p : Bool) (i : Nat) (x : JSValue) (r : List JSValue) :
    ∃ tail, printItems p i (x :: r) =
      (if p then indentChars i else []) ++ (printJson p i x ++ tail) := by
  cases r with
  | nil => exact ⟨[], by simp [printItems]⟩
  | cons y r2 =>
    refine ⟨(if p then [',', nlCh] else [',']) ++ printItems p i (y :: r2), ?_⟩
    simp [printItems]

theorem printFields_cons_decomp (p : Bool) (i : Nat) (f : String × JSValue)
    (r : List (String × JSValue)) :
    ∃ tail, printFields p i (f :: r) =
      (if p then indentChars i else []) ++ (quoteCh :: tail) := by
  obtain ⟨k, v⟩ := f
  cases r with
  | nil =>
    refine ⟨(k.data.map escChar).flatten ++ [quoteCh] ++
      ':' :: (if p then [' '] else []) ++ printJson p i v, ?_⟩
    simp [printFields, quoteString]
  | cons g r2 =>
    refine ⟨(k.data.map escChar).flatten ++ [quoteCh] ++
      ':' :: (if p then [' '] else []) ++ printJson p i v ++
      (if p then [',', nlCh] else [',']) ++ printFields p i (g :: r2), ?_⟩
    simp [printFields, quoteString]

theorem numHead_ne {c : Char} (h : c = '-' ∨ isDig c = true) :
    isJsWs c = false ∧ c ≠ 'n' ∧ c ≠ 't' ∧ c ≠ 'f' ∧ c ≠ quoteCh ∧ c ≠ '[' ∧ c ≠ lcurlyCh := by
  rcases h with rfl | hd
  · refine ⟨by decide, by decide, by decide, by decide, by decide, by decide, by decide⟩
  · have hn : 48 ≤ c.toNat ∧ c.toNat ≤ 57 := by
      unfold isDig at hd
      simpa using hd
    refine ⟨isDig_not_ws hd, ?_, ?_, ?_, ?_, ?_, ?_⟩ <;>
    · intro he
      subst he
      revert hn
      decide

theorem notDigitHead_cons (c : Char) (l : List Char) (hc : isDig c = false) :
    NotDigitHead (c :: l) := by
  intro z hz
  simp only [List.head?_cons, Option.some.injEq] at hz
  rw [← hz]
  exact hc

theorem ws_single {c : Char} (hc : isJsWs c = true) : ∀ x ∈ [c], isJsWs x = true := by
  intro x hx
  simp only [List.mem_singleton] at hx
  rw [hx]
  exact hc

theorem spaceOpt_ws (p : Bool) : ∀ x ∈ (if p then [' '] else ([] : List Char)), isJsWs x = true := by
  split
  · exact ws_single (by decide)
  · intro x hx
    simp at hx

/-- Parsing the printed form of a JSON value (in either layout) recovers the
value exactly and leaves the trailing input untouched. -/
theorem parse_print (fuel : Nat) :
    (∀ pretty ind v rest, jsonNeed v ≤ fuel → NotDigitHead rest →
      parseJson fuel (printJson pretty ind v ++ rest) = some (v, rest)) ∧
    (∀ pretty ind xs rest w, xs ≠ [] → needItems xs ≤ fuel → (∀ x ∈ w, isJsWs x = true) →
      parseItems fuel (printItems pretty ind xs ++ (w ++ ']' :: rest)) = some (xs, rest)) ∧
    (∀ pretty ind fs rest w, fs ≠ [] → needFields fs ≤ fuel → (∀ x ∈ w, isJsWs x = true) →
      parseFields fuel (printFields pretty ind fs ++ (w ++ rcurlyCh :: rest)) = some (fs, rest)) := by
  induction fuel with
  | zero =>
    refine ⟨?_, ?_, ?_⟩
    · intro pretty ind v rest hne _
      exact absurd hne (by have := jsonNeed_pos v; omega)
    · intro pretty ind xs rest w _ hne _
      exact absurd hne (by have := needItems_pos xs; omega)
    · intro pretty ind fs rest w _ hne _
      exact absurd hne (by have := needFields_pos fs; omega)
  | succ fuel IH =>
    obtain ⟨IHv, IHi, IHf⟩ := IH
    refine ⟨?_, ?_, ?_⟩
    · -- a single value
      intro pretty ind v rest hfuel hrest
      cases v with
      | null =>
        simp only [printJson, List.cons_append, List.nil_append]
        unfold parseJson
        rw [skipWs_cons_nonws 'n' _ (by decide)]
        simp [List.isPrefixOf]
      | bool b =>
        cases b
        · simp only [printJson, Bool.false_eq_true, if_false, List.cons_append,
            List.nil_append]
          unfold parseJson
          rw [skipWs_cons_nonws 'f' _ (by decide)]
          simp [List.isPrefixOf]
        · simp only [printJson, if_true, List.cons_append, List.nil_append]
          unfold parseJson
          rw [skipWs_cons_nonws 't' _ (by decide)]
          simp [List.isPrefixOf]
      | num n =>
        simp only [printJson]
        obtain ⟨c, cs, hcr, hcds⟩ : ∃ c cs, (intToString n).data = c :: cs ∧
            (c = '-' ∨ isDig c = true) := by
          unfold intToString
          split
          · exact ⟨'-', _, rfl, Or.inl rfl⟩
          · obtain ⟨c, cs, h⟩ : ∃ c cs, natToChars n.toNat = c :: cs := by
              cases h : natToChars n.toNat with
              | nil => exact absurd h (natToChars_ne_nil _)
              | cons c cs => exact ⟨c, cs, rfl⟩
            refine ⟨c, cs, by rw [data_mk, h], Or.inr ?_⟩
            apply natToChars_all_dig
            rw [h]
            exact List.mem_cons_self c cs
        obtain ⟨hws, hn, ht, hf, hq, hlb, hlc⟩ := numHead_ne hcds
        unfold parseJson
        rw [hcr, List.cons_append, skipWs_cons_nonws c _ hws]
        dsimp only
        rw [if_neg (by simpa using hn), if_neg (by simpa using ht), if_neg (by simpa using hf),
          if_neg (by simpa using hq), if_neg (by simpa using hlb), if_neg (by simpa using hlc)]
        rw [← List.cons_append, ← hcr, parseNumToken_roundtrip n rest hrest]
        rfl
      | str s =>
        simp only [printJson, quoteString, List.cons_append, List.append_assoc,
          List.singleton_append, List.nil_append]
        unfold parseJson
        rw [skipWs_cons_nonws quoteCh _ (by decide)]
        dsimp only
        rw [if_neg (by decide), if_neg (by decide), if_neg (by decide), if_pos rfl]
        rw [parseStrChars_roundtrip]
        rfl
      | arr xs =>
        cases xs with
        | nil =>
          simp only [printJson, List.cons_append, List.nil_append]
          unfold parseJson
          rw [skipWs_cons_nonws '[' _ (by decide)]
          dsimp only
          rw [if_neg (by decide), if_neg (by decide), if_neg (by decide), if_neg (by decide),
            if_pos rfl, skipWs_cons_nonws ']' _ (by decide)]
          dsimp only
          rw [if_pos rfl]
        | cons x r =>
          have hneed : needItems (x :: r) ≤ fuel := by
            simp only [jsonNeed] at hfuel
            omega
          obtain ⟨c0, t0, hprint, hws0, hnb⟩ := printJson_head_spec pretty (ind + 2) x
          obtain ⟨tail, hdecomp⟩ := printItems_cons_decomp pretty (ind + 2) x r
          simp only [printJson]
          split
          · simp only [List.cons_append, List.append_assoc, List.singleton_append, List.nil_append]
            unfold parseJson
            rw [skipWs_cons_nonws '[' _ (by decide)]
            dsimp only
            rw [if_neg (by decide), if_neg (by decide), if_neg (by decide), if_neg (by decide),
              if_pos rfl]
            have hsw : skipWs (nlCh :: (printItems pretty (ind + 2) (x :: r) ++
                (nlCh :: (indentChars ind ++ ']' :: rest))))
                = c0 :: (t0 ++ (tail ++ (nlCh :: (indentChars ind ++ ']' :: rest)))) := by
              rw [skipWs_nl, hdecomp, List.append_assoc,
                skipWs_append_ws _ _ (itemIndent_ws pretty (ind + 2)),
                hprint, List.cons_append, List.cons_append, skipWs_cons_nonws c0 _ hws0,
                List.append_assoc]
            rw [hsw]
            dsimp only
            rw [if_neg (by simpa using hnb)]
            have hcongr : parseItems fuel
                (c0 :: (t0 ++ (tail ++ (nlCh :: (indentChars ind ++ ']' :: rest)))))
                = parseItems fuel (printItems pretty (ind + 2) (x :: r) ++
                    ((nlCh :: indentChars ind) ++ ']' :: rest)) := by
              apply parseItems_congr
              rw [skipWs_cons_nonws c0 _ hws0]
              rw [show printItems pretty (ind + 2) (x :: r) ++ ((nlCh :: indentChars ind) ++ ']' :: rest)
                  = printItems pretty (ind + 2) (x :: r) ++ (nlCh :: (indentChars ind ++ ']' :: rest)) by
                simp [List.append_assoc]]
              rw [hdecomp, List.append_assoc,
                skipWs_append_ws _ _ (itemIndent_ws pretty (ind + 2)), hprint,
                List.cons_append, List.cons_append, skipWs_cons_nonws c0 _ hws0, List.append_assoc]
            rw [hcongr, IHi pretty (ind + 2) (x :: r) rest (nlCh :: indentChars ind) (by simp) hneed
              (by
                intro y hy
                rcases List.mem_cons.mp hy with rfl | hy2
                · decide
                · exact indentChars_ws ind y hy2)]
            rfl
          · simp only [List.cons_append, List.append_assoc, List.singleton_append, List.nil_append]
            unfold parseJson
            rw [skipWs_cons_nonws '[' _ (by decide)]
            dsimp only
            rw [if_neg (by decide), if_neg (by decide), if_neg (by decide), if_neg (by decide),
              if_pos rfl]
            have hsw : skipWs (printItems pretty (ind + 2) (x :: r) ++ (']' :: rest))
                = c0 :: (t0 ++ (tail ++ (']' :: rest))) := by
              rw [hdecomp, List.append_assoc,
                skipWs_append_ws _ _ (itemIndent_ws pretty (ind + 2)),
                hprint, List.cons_append, List.cons_append, skipWs_cons_nonws c0 _ hws0,
                List.append_assoc]
            rw [hsw]
            dsimp only
            rw [if_neg (by simpa using hnb)]
            have hcongr : parseItems fuel (c0 :: (t0 ++ (tail ++ (']' :: rest))))
                = parseItems fuel (printItems pretty (ind + 2) (x :: r) ++ ([] ++ ']' :: rest)) := by
              apply parseItems_congr
              rw [skipWs_cons_nonws c0 _ hws0, List.nil_append]
              rw [hdecomp, List.append_assoc,
                skipWs_append_ws _ _ (itemIndent_ws pretty (ind + 2)), hprint,
                List.cons_append, List.cons_append, skipWs_cons_nonws c0 _ hws0, List.append_assoc]
            rw [hcongr, IHi pretty (ind + 2) (x :: r) rest [] (by simp) hneed
              (by intro y hy; simp at hy)]
            rfl
      | obj fs =>
        cases fs with
        | nil =>
          simp only [printJson, List.cons_append, List.nil_append]
          unfold parseJson
          rw [skipWs_cons_nonws lcurlyCh _ (by decide)]
          dsimp only
          rw [if_neg (by decide), if_neg (by decide), if_neg (by decide), if_neg (by decide),
            if_neg (by decide), if_pos rfl, skipWs_cons_nonws rcurlyCh _ (by decide)]
          dsimp only
          rw [if_pos rfl]
        | cons f r =>
          have hneed : needFields (f :: r) ≤ fuel := by
            simp only [jsonNeed] at hfuel
            omega
          obtain ⟨tail, hdecomp⟩ := printFields_cons_decomp pretty (ind + 2) f r
          simp only [printJson]
          split
          · simp only [List.cons_append, List.append_assoc, List.singleton_append, List.nil_append]
            unfold parseJson
            rw [skipWs_cons_nonws lcurlyCh _ (by decide)]
            dsimp only
            rw [if_neg (by decide), if_neg (by decide), if_neg (by decide), if_neg (by decide),
              if_neg (by decide), if_pos rfl]
            have hsw : skipWs (nlCh :: (printFields pretty (ind + 2) (f :: r) ++
                (nlCh :: (indentChars ind ++ rcurlyCh :: rest))))
                = quoteCh :: (tail ++ (nlCh :: (indentChars ind ++ rcurlyCh :: rest))) := by
              rw [skipWs_nl, hdecomp, List.append_assoc,
                skipWs_append_ws _ _ (itemIndent_ws pretty (ind + 2)), List.cons_append,
                skipWs_cons_nonws quoteCh _ (by decide)]
            rw [hsw]
            dsimp only
            rw [if_neg (by decide)]
            have hcongr : parseFields fuel
                (quoteCh :: (tail ++ (nlCh :: (indentChars ind ++ rcurlyCh :: rest))))
                = parseFields fuel (printFields pretty (ind + 2) (f :: r) ++
                    ((nlCh :: indentChars ind) ++ rcurlyCh :: rest)) := by
              apply parseFields_congr
              rw [skipWs_cons_nonws quoteCh _ (by decide)]
              rw [show printFields pretty (ind + 2) (f :: r) ++
                    ((nlCh :: indentChars ind) ++ rcurlyCh :: rest)
                  = printFields pretty (ind + 2) (f :: r) ++
                    (nlCh :: (indentChars ind ++ rcurlyCh :: rest)) by
                simp [List.append_assoc]]
              rw [hdecomp, List.append_assoc,
                skipWs_append_ws _ _ (itemIndent_ws pretty (ind + 2)), List.cons_append,
                skipWs_cons_nonws quoteCh _ (by decide)]
            rw [hcongr, IHf pretty (ind + 2) (f :: r) rest (nlCh :: indentChars ind) (by simp) hneed
              (by
                intro y hy
                rcases List.mem_cons.mp hy with rfl | hy2
                · decide
                · exact indentChars_ws ind y hy2)]
            rfl
          · simp only [List.cons_append, List.append_assoc, List.singleton_append, List.nil_append]
            unfold parseJson
            rw [skipWs_cons_nonws lcurlyCh _ (by decide)]
            dsimp only
            rw [if_neg (by decide), if_neg (by decide), if_neg (by decide), if_neg (by decide),
              if_neg (by decide), if_pos rfl]
            have hsw : skipWs (printFields pretty (ind + 2) (f :: r) ++ (rcurlyCh :: rest))
                = quoteCh :: (tail ++ (rcurlyCh :: rest)) := by
              rw [hdecomp, List.append_assoc,
                skipWs_append_ws _ _ (itemIndent_ws pretty (ind + 2)), List.cons_append,
                skipWs_cons_nonws quoteCh _ (by decide)]
            rw [hsw]
            dsimp only
            rw [if_neg (by decide)]
            have hcongr : parseFields fuel (quoteCh :: (tail ++ (rcurlyCh :: rest)))
                = parseFields fuel (printFields pretty (ind + 2) (f :: r) ++
                    ([] ++ rcurlyCh :: rest)) := by
              apply parseFields_congr
              rw [skipWs_cons_nonws quoteCh _ (by decide), List.nil_append]
              rw [hdecomp, List.append_assoc,
                skipWs_append_ws _ _ (itemIndent_ws pretty (ind + 2)), List.cons_append,
                skipWs_cons_nonws quoteCh _ (by decide)]
            rw [hcongr, IHf pretty (ind + 2) (f :: r) rest [] (by simp) hneed
              (by intro y hy; simp at hy)]
            rfl
    · -- items of a non-empty array
      intro pretty ind xs rest w hne hfuel hw
      match xs with
      | [x] =>
        have hneedx : jsonNeed x ≤ fuel := by
          simp only [needItems] at hfuel
          omega
        simp only [printItems, List.append_assoc, List.nil_append]
        unfold parseItems
        have hpj : parseJson fuel ((if pretty then indentChars ind else []) ++
            (printJson pretty ind x ++ (w ++ ']' :: rest))) = some (x, w ++ ']' :: rest) := by
          rw [parseJson_congr fuel (skipWs_append_ws _ _ (itemIndent_ws pretty ind))]
          exact IHv pretty ind x (w ++ ']' :: rest) hneedx
            (notDigitHead_ws_append rest hw (by decide))
        rw [hpj]
        dsimp only
        rw [skipWs_ws_append_cons rest hw (by decide)]
        dsimp only
        rw [if_neg (by decide), if_pos rfl]
      | x :: y :: r =>
        have hneedx : jsonNeed x ≤ fuel := by
          simp only [needItems] at hfuel
          omega
        have hneedr : needItems (y :: r) ≤ fuel := by
          simp only [needItems] at hfuel
          omega
        cases pretty with
        | true =>
          simp only [printItems, List.append_assoc, List.nil_append, List.cons_append,
            List.singleton_append, if_pos]
          unfold parseItems
          have hpj : parseJson fuel (indentChars ind ++
              (printJson true ind x ++ (',' :: (nlCh :: (printItems true ind (y :: r) ++
                (w ++ ']' :: rest))))))
              = some (x, ',' :: (nlCh :: (printItems true ind (y :: r) ++ (w ++ ']' :: rest)))) := by
            rw [parseJson_congr fuel (skipWs_append_ws _ _ (indentChars_ws ind))]
            exact IHv true ind x _ hneedx (notDigitHead_cons ',' _ (by decide))
          rw [hpj]
          dsimp only
          rw [skipWs_cons_nonws ',' _ (by decide)]
          dsimp only
          rw [if_pos rfl]
          have hpi : parseItems fuel (nlCh :: (printItems true ind (y :: r) ++ (w ++ ']' :: rest)))
              = some (y :: r, rest) := by
            rw [parseItems_congr fuel (skipWs_nl _)]
            exact IHi true ind (y :: r) rest w (by simp) hneedr hw
          rw [hpi]
        | false =>
          simp only [printItems, List.append_assoc, List.nil_append, List.cons_append,
            List.singleton_append, Bool.false_eq_true, if_false]
          unfold parseItems
          have hpj : parseJson fuel (printJson false ind x ++ (',' :: (printItems false ind (y :: r) ++
                (w ++ ']' :: rest))))
              = some (x, ',' :: (printItems false ind (y :: r) ++ (w ++ ']' :: rest))) := by
            exact IHv false ind x _ hneedx (notDigitHead_cons ',' _ (by decide))
          rw [hpj]
          dsimp only
          rw [skipWs_cons_nonws ',' _ (by decide)]
          dsimp only
          rw [if_pos rfl]
          have hpi : parseItems fuel (printItems false ind (y :: r) ++ (w ++ ']' :: rest))
              = some (y :: r, rest) := by
            exact IHi false ind (y :: r) rest w (by simp) hneedr hw
          rw [hpi]
    · -- members of a non-empty object
      intro pretty ind fs rest w hne hfuel hw
      match fs with
      | [(k, v)] =>
        have hneedv : jsonNeed v ≤ fuel := by
          simp only [needFields] at hfuel
          omega
        simp only [printFields, quoteString, List.append_assoc, List.nil_append,
          List.cons_append, List.singleton_append]
        unfold parseFields
        rw [skipWs_append_ws _ _ (itemIndent_ws pretty ind), skipWs_cons_nonws quoteCh _ (by decide)]
        dsimp only
        rw [if_pos rfl, parseStrChars_roundtrip]
        dsimp only
        rw [skipWs_cons_nonws ':' _ (by decide)]
        dsimp only
        rw [if_pos rfl]
        have hpj : parseJson fuel ((if pretty then [' '] else []) ++
            (printJson pretty ind v ++ (w ++ rcurlyCh :: rest)))
            = some (v, w ++ rcurlyCh :: rest) := by
          rw [parseJson_congr fuel (skipWs_append_ws _ _ (spaceOpt_ws pretty))]
          exact IHv pretty ind v _ hneedv (notDigitHead_ws_append rest hw (by decide))
        rw [hpj]
        dsimp only
        rw [skipWs_ws_append_cons rest hw (by decide)]
        dsimp only
        rw [if_neg (by decide), if_pos rfl]
      | (k, v) :: g :: r =>
        have hneedv : jsonNeed v ≤ fuel := by
          simp only [needFields] at hfuel
          omega
        have hneedr : needFields (g :: r) ≤ fuel := by
          simp only [needFields] at hfuel
          omega
        cases pretty with
        | true =>
          simp only [printFields, quoteString, List.append_assoc, List.nil_append,
            List.cons_append, List.singleton_append, if_pos]
          unfold parseFields
          rw [skipWs_append_ws _ _ (indentChars_ws ind), skipWs_cons_nonws quoteCh _ (by decide)]
          dsimp only
          rw [if_pos rfl, parseStrChars_roundtrip]
          dsimp only
          rw [skipWs_cons_nonws ':' _ (by decide)]
          dsimp only
          rw [if_pos rfl]
          have hpj : parseJson fuel (' ' :: (printJson true ind v ++
              (',' :: (nlCh :: (printFields true ind (g :: r) ++ (w ++ rcurlyCh :: rest))))))
              = some (v, ',' :: (nlCh :: (printFields true ind (g :: r) ++
                  (w ++ rcurlyCh :: rest)))) := by
            have h0 : parseJson fuel (' ' :: (printJson true ind v ++
                (',' :: (nlCh :: (printFields true ind (g :: r) ++ (w ++ rcurlyCh :: rest))))))
                = parseJson fuel (printJson true ind v ++
                  (',' :: (nlCh :: (printFields true ind (g :: r) ++ (w ++ rcurlyCh :: rest))))) :=
              parseJson_congr fuel (skipWs_append_ws [' '] _ (ws_single (by decide)))
            rw [h0]
            exact IHv true ind v _ hneedv (notDigitHead_cons ',' _ (by decide))
          rw [hpj]
          dsimp only
          rw [skipWs_cons_nonws ',' _ (by decide)]
          dsimp only
          rw [if_pos rfl]
          have hpf : parseFields fuel (nlCh :: (printFields true ind (g :: r) ++
              (w ++ rcurlyCh :: rest))) = some (g :: r, rest) := by
            rw [parseFields_congr fuel (skipWs_nl _)]
            exact IHf true ind (g :: r) rest w (by simp) hneedr hw
          rw [hpf]
        | false =>
          simp only [printFields, quoteString, List.append_assoc, List.nil_append,
            List.cons_append, List.singleton_append, Bool.false_eq_true, if_false]
          unfold parseFields
          rw [skipWs_cons_nonws quoteCh _ (by decide)]
          dsimp only
          rw [if_pos rfl, parseStrChars_roundtrip]
          dsimp only
          rw [skipWs_cons_nonws ':' _ (by decide)]
          dsimp only
          rw [if_pos rfl]
          have hpj : parseJson fuel (printJson false ind v ++
              (',' :: (printFields false ind (g :: r) ++ (w ++ rcurlyCh :: rest))))
              = some (v, ',' :: (printFields false ind (g :: r) ++ (w ++ rcurlyCh :: rest))) := by
            exact IHv false ind v _ hneedv (notDigitHead_cons ',' _ (by decide))
          rw [hpj]
          dsimp only
          rw [skipWs_cons_nonws ',' _ (by decide)]
          dsimp only
          rw [if_pos rfl]
          have hpf : parseFields fuel (printFields false ind (g :: r) ++ (w ++ rcurlyCh :: rest))
              = some (g :: r, rest) := by
            exact IHf false ind (g :: r) rest w (by simp) hneedr hw
          rw [hpf]

/-- `JSON.parse` inverts `JSON.stringify` in either layout. -/
theorem jsonParse_print (pretty : Bool) (v : JSValue) :
    jsonParse ⟨printJson pretty 0 v⟩ = some v := by
  unfold jsonParse
  rw [data_mk]
  have hb := jsonNeed_le pretty 0 v
  have h := (parse_print ((printJson pretty 0 v).length + 1)).1 pretty 0 v []
    (by omega) (by intro c hc; simp at hc)
  rw [List.append_nil] at h
  rw [h]
  simp [skipWs]

theorem natToChars_len_one {n : Nat} (h : n < 10) : natToChars n = [digCh n] := by
  unfold natToChars
  split
  · subst ‹n = 0›
    rfl
  · rw [natDigits_eq]
    have hlen : Nat.digits 10 n = [n] := by
      rw [Nat.digits_def' (by norm_num : (1:Nat) < 10) (by omega)]
      simp [Nat.mod_eq_of_lt h, Nat.div_eq_of_lt h]
    rw [hlen]
    simp

theorem pad2_spec {n : Nat} (h : n ≤ 99) :
    ∃ a b, pad2 n = [a, b] ∧ isDig a = true ∧ isDig b = true ∧
      10 * digVal a + digVal b = n := by
  by_cases hlt : n < 10
  · refine ⟨'0', digCh n, ?_, by decide, isDig_digCh hlt, ?_⟩
    · unfold pad2
      rw [natToChars_len_one hlt]
      rfl
    · rw [digVal_digCh hlt, show digVal '0' = 0 from rfl]
      omega
  · have hge : 10 ≤ n := by omega
    have hlen : (natToChars n).length = 2 := by
      unfold natToChars
      rw [if_neg (by omega), natDigits_eq]
      rw [List.length_reverse, List.length_map]
      rw [Nat.digits_len 10 n (by norm_num) (by omega)]
      have : Nat.log 10 n = 1 :=
        Nat.log_eq_of_pow_le_of_lt_pow (by simpa using hge) (by simpa using Nat.lt_succ_of_le h)
      omega
    obtain ⟨a, b, hab⟩ : ∃ a b, natToChars n = [a, b] := List.length_eq_two.mp hlen
    have hda : isDig a = true := natToChars_all_dig n a (by rw [hab]; simp)
    have hdb : isDig b = true := natToChars_all_dig n b (by rw [hab]; simp)
    refine ⟨a, b, ?_, hda, hdb, ?_⟩
    · unfold pad2
      rw [hab]
      rfl
    · have := digitsVal_natToChars n
      rw [hab] at this
      simp [digitsVal, Nat.ofDigits] at this
      omega

theorem pad2_all_dig (n : Nat) : ∀ c ∈ pad2 n, isDig c = true := by
  intro c hc
  unfold pad2 at hc
  rcases List.mem_append.mp hc with hrep | hmem
  · rw [List.eq_of_mem_replicate hrep]
    decide
  · exact natToChars_all_dig n c hmem

theorem parse2_pad2 {n : Nat} (h : n ≤ 99) (rest : List Char) :
    parse2 (pad2 n ++ rest) = some (n, rest) := by
  obtain ⟨a, b, hab, da, db, hv⟩ := pad2_spec h
  rw [hab]
  show parse2 (a :: b :: rest) = some (n, rest)
  simp [parse2, da, db, hv]

theorem intToString_nonneg_data {y : Int} (h : 0 ≤ y) :
    (intToString y).data = natToChars y.toNat := by
  unfold intToString
  rw [if_neg (by omega)]

theorem formatDateFromTuple_data (t : DateTuple) (variant : DateVariant) :
    (formatDateFromTuple t variant).data
      = (intToString t.year).data ++ ('-' :: (pad2 t.month ++ ('-' :: (pad2 t.day ++
          (if variant = DateVariant.datetime then
            'T' :: (pad2 t.hour ++ (':' :: pad2 t.minute)) else []))))) := by
  cases variant <;> simp [formatDateFromTuple, List.cons_append, List.append_assoc]

theorem parse2_pad2_nil {n : Nat} (h : n ≤ 99) : parse2 (pad2 n) = some (n, []) := by
  have := parse2_pad2 h []
  rwa [List.append_nil] at this

theorem jsDateParse_format (t : DateTuple) (variant : DateVariant)
    (hy : 0 ≤ t.year) (hmo1 : 1 ≤ t.month) (hmo2 : t.month ≤ 12)
    (hd1 : 1 ≤ t.day) (hd2 : t.day ≤ 31) (hh : t.hour ≤ 23) (hmi : t.minute ≤ 59) :
    jsDateParse (formatDateFromTuple t variant)
      = some (match variant with
          | DateVariant.date => ⟨t.year, t.month, t.day, 0, 0⟩
          | DateVariant.datetime => t) := by
  have hyeq : Int.ofNat t.year.toNat = t.year := by
    simp only [Int.ofNat_eq_coe]
    omega
  have hminus : ∀ (X : List Char) (c : Char), (('-' :: X) : List Char).head? = some c →
      isDig c = false := by
    intro X c hc
    simp only [List.head?_cons, Option.some.injEq] at hc
    rw [← hc]
    decide
  cases variant with
  | date =>
    unfold jsDateParse
    rw [formatDateFromTuple_data, intToString_nonneg_data hy]
    simp only [reduceCtorEq, if_false, List.append_nil]
    rw [takeWhile_dig_printed _ _ (hminus _), dropWhile_dig_printed _ _ (hminus _)]
    rw [if_neg (by simp [natToChars_ne_nil]), if_neg (by simp)]
    simp only [List.tail_cons]
    rw [parse2_pad2 (by omega)]
    dsimp only
    rw [if_neg (by simp), List.tail_cons, parse2_pad2_nil (by omega)]
    dsimp only
    rw [if_neg (by omega), if_pos (by simp)]
    rw [digitsVal_natToChars, hyeq]
  | datetime =>
    unfold jsDateParse
    rw [formatDateFromTuple_data, intToString_nonneg_data hy]
    simp only [eq_self_iff_true, if_true]
    rw [takeWhile_dig_printed _ _ (hminus _), dropWhile_dig_printed _ _ (hminus _)]
    rw [if_neg (by simp [natToChars_ne_nil]), if_neg (by simp)]
    simp only [List.tail_cons]
    rw [parse2_pad2 (by omega)]
    dsimp only
    rw [if_neg (by simp), List.tail_cons, parse2_pad2 (by omega)]
    dsimp only
    rw [if_neg (by omega), if_neg (by simp), if_neg (by simp), List.tail_cons,
      parse2_pad2 (by omega)]
    dsimp only
    rw [if_neg (by simp), List.tail_cons, parse2_pad2_nil (by omega)]
    dsimp only
    rw [if_neg (by omega), if_pos (by rfl)]
    rw [digitsVal_natToChars, hyeq]

theorem jsDateParse_valid {s : String} {t : DateTuple} (h : jsDateParse s = some t) :
    0 ≤ t.year ∧ 1 ≤ t.month ∧ t.month ≤ 12 ∧ 1 ≤ t.day ∧ t.day ≤ 31 ∧
      t.hour ≤ 23 ∧ t.minute ≤ 59 := by
  unfold jsDateParse at h
  repeat' split at h
  all_goals try exact Option.noConfusion h
  all_goals
    injection h with h2
    rw [← h2]
    dsimp only
    simp only [Int.ofNat_eq_coe]
    omega

theorem formatDateFromTuple_ne_nil (t : DateTuple) (variant : DateVariant) :
    (formatDateFromTuple t variant).data ≠ [] := by
  rw [formatDateFromTuple_data]
  intro hc
  rcases List.append_eq_nil.mp hc with ⟨h1, h2⟩
  simp at h2

theorem formatDateFromTuple_nonws (t : DateTuple) (variant : DateVariant) (hy : 0 ≤ t.year) :
    ∀ c ∈ (formatDateFromTuple t variant).data, isJsWs c = false := by
  intro c hc
  rw [formatDateFromTuple_data, intToString_nonneg_data hy] at hc
  simp only [List.mem_append, List.mem_cons] at hc
  rcases hc with hc | rfl | hc
  · exact isDig_not_ws (natToChars_all_dig _ _ hc)
  · decide
  · rcases hc with hc | rfl | hc
    · exact isDig_not_ws (pad2_all_dig _ _ hc)
    · decide
    · rcases hc with hc | hc
      · exact isDig_not_ws (pad2_all_dig _ _ hc)
      · cases variant with
        | date => simp at hc
        | datetime =>
          simp only [reduceCtorEq, eq_self_iff_true, if_true, List.mem_cons,
            List.mem_append] at hc
          rcases hc with rfl | hc | rfl | hc
          · decide
          · exact isDig_not_ws (pad2_all_dig _ _ hc)
          · decide
          · exact isDig_not_ws (pad2_all_dig _ _ hc)

theorem matchesDateRe_ne_nil {s : String} (h : matchesDateRe s = true) : s.data ≠ [] := by
  unfold matchesDateRe at h
  intro hnil
  rw [hnil] at h
  simp at h

theorem matchesDateTimeRe_ne_nil {s : String} (h : matchesDateTimeRe s = true) : s.data ≠ [] := by
  unfold matchesDateTimeRe at h
  intro hnil
  rw [hnil] at h
  simp at h

theorem formatDateFromTuple_date_drops_time (t : DateTuple) :
    formatDateFromTuple ⟨t.year, t.month, t.day, 0, 0⟩ DateVariant.date
      = formatDateFromTuple t DateVariant.date := by
  simp [formatDateFromTuple]

/-- Re-normalizing the output of `formatDateForInput` on a string value is a
no-op: the formatted shape is a fixed point of the formatter. -/
theorem formatDateForInput_str_idem (s : String) (variant : DateVariant) :
    formatDateForInput (JSValue.str (formatDateForInput (JSValue.str s) variant)) variant
      = formatDateForInput (JSValue.str s) variant := by
  by_cases hfal : jsFalsy (JSValue.str s) = true
  · rw [show formatDateForInput (JSValue.str s) variant = "" by
      unfold formatDateForInput; rw [if_pos hfal]]
    unfold formatDateForInput
    rw [if_pos (by decide)]
  · have hstep : formatDateForInput (JSValue.str s) variant
        = (if variant = DateVariant.date ∧ matchesDateRe (jsTrim s) = true then jsTrim s
          else if variant = DateVariant.datetime ∧ matchesDateTimeRe (jsTrim s) = true then jsTrim s
          else
            match jsDateParse (jsTrim s) with
            | some t => formatDateFromTuple t variant
            | none => "") := by
      unfold formatDateForInput
      rw [if_neg hfal]
    by_cases h1 : variant = DateVariant.date ∧ matchesDateRe (jsTrim s) = true
    · rw [hstep, if_pos h1]
      unfold formatDateForInput
      rw [if_neg (by
        simp only [jsFalsy, Bool.not_eq_true]
        exact Bool.eq_false_iff.mpr fun hemp =>
          matchesDateRe_ne_nil h1.2 (List.isEmpty_iff.mp hemp))]
      dsimp only
      rw [if_pos ⟨h1.1, by rw [jsTrim_idem]; exact h1.2⟩, jsTrim_idem]
    · by_cases h2 : variant = DateVariant.datetime ∧ matchesDateTimeRe (jsTrim s) = true
      · rw [hstep, if_neg h1, if_pos h2]
        unfold formatDateForInput
        rw [if_neg (by
          simp only [jsFalsy, Bool.not_eq_true]
          exact Bool.eq_false_iff.mpr fun hemp =>
            matchesDateTimeRe_ne_nil h2.2 (List.isEmpty_iff.mp hemp))]
        dsimp only
        rw [if_neg (by rw [jsTrim_idem]; exact fun hcon => h1 ⟨hcon.1, hcon.2⟩)]
        rw [if_pos ⟨h2.1, by rw [jsTrim_idem]; exact h2.2⟩, jsTrim_idem]
      · cases hp : jsDateParse (jsTrim s) with
        | none =>
          rw [hstep, if_neg h1, if_neg h2, hp]
          dsimp only
          unfold formatDateForInput
          rw [if_pos (by decide)]
        | some t =>
          obtain ⟨hy, hmo1, hmo2, hd1, hd2, hh, hmi⟩ := jsDateParse_valid hp
          rw [hstep, if_neg h1, if_neg h2, hp]
          dsimp only
          unfold formatDateForInput
          rw [if_neg (by
            simp only [jsFalsy, Bool.not_eq_true]
            exact Bool.eq_false_iff.mpr fun hemp =>
              formatDateFromTuple_ne_nil t variant (List.isEmpty_iff.mp hemp))]
          dsimp only
          rw [jsTrim_nonws _ (formatDateFromTuple_nonws t variant hy)]
          by_cases hm1 : variant = DateVariant.date ∧ matchesDateRe (formatDateFromTuple t variant) = true
          · rw [if_pos hm1]
          · rw [if_neg hm1]
            by_cases hm2 : variant = DateVariant.datetime ∧
                matchesDateTimeRe (formatDateFromTuple t variant) = true
            · rw [if_pos hm2]
            · rw [if_neg hm2]
              rw [jsDateParse_format t variant hy hmo1 hmo2 hd1 hd2 hh hmi]
              cases variant with
              | date =>
                dsimp only
                exact formatDateFromTuple_date_drops_time t
              | datetime => dsimp only

theorem intToString_trim_self (n : Int) : jsTrim (intToString n) = intToString n := by
  unfold intToString
  split
  · exact jsTrim_minus_natToChars n.natAbs
  · exact jsTrim_natToChars n.toNat

theorem intToString_data_ne_nil (n : Int) : (intToString n).data ≠ [] := by
  unfold intToString
  split
  · intro h
    exact absurd h (by simp [data_mk])
  · rw [data_mk]
    exact natToChars_ne_nil n.toNat

theorem toNumber_intToString (n : Int) :
    toNumber (JSValue.str (intToString n)) = some n := by
  unfold toNumber
  dsimp only
  rw [if_pos]
  · exact jsStringToInt_intToString n
  · rw [intToString_trim_self]
    exact List.length_pos.mpr (intToString_data_ne_nil n)

theorem toBoolean_null_or_bool (v : JSValue) :
    toBoolean v = JSValue.null ∨ ∃ b, toBoolean v = JSValue.bool b := by
  unfold toBoolean
  cases v with
  | null => exact Or.inl rfl
  | bool b => exact Or.inr ⟨b, rfl⟩
  | num n =>
    dsimp only
    split
    · exact Or.inr ⟨true, rfl⟩
    · split
      · exact Or.inr ⟨false, rfl⟩
      · exact Or.inl rfl
  | str s =>
    dsimp only
    split
    · exact Or.inr ⟨true, rfl⟩
    · split
      · exact Or.inr ⟨false, rfl⟩
      · exact Or.inl rfl
  | arr xs => exact Or.inl rfl
  | obj fs => exact Or.inl rfl

theorem formatDateForInput_idem_nonnum (v : JSValue) (hv : v.isNumber = false)
    (variant : DateVariant) :
    formatDateForInput (JSValue.str (formatDateForInput v variant)) variant
      = formatDateForInput v variant := by
  cases v with
  | str s => exact formatDateForInput_str_idem s variant
  | num n => exact absurd hv (by simp [JSValue.isNumber])
  | null => cases variant <;> rfl
  | bool b => cases b <;> cases variant <;> rfl
  | arr xs =>
    have h1 : formatDateForInput (JSValue.arr xs) variant = "" := by
      unfold formatDateForInput
      split
    -- jsFalsy (arr xs) = false, so the if takes the else; match arr → ""
      · rfl
      · rfl
    rw [h1]
    cases variant <;> rfl
  | obj fs =>
    have h1 : formatDateForInput (JSValue.obj fs) variant = "" := by
      unfold formatDateForInput
      split
      · rfl
      · rfl
    rw [h1]
    cases variant <;> rfl

theorem stringifyValue_str (s : String) : stringifyValue (JSValue.str s) = s := rfl

theorem stringifyValue_num (n : Int) : stringifyValue (JSValue.num n) = intToString n := rfl

theorem toBoolean_bool (b : Bool) : toBoolean (JSValue.bool b) = JSValue.bool b := rfl

theorem prep_then_normalize_equal (t : EntryFieldInputType) (k : String) (ro : Bool) (v : JSValue)
    (hnum : v.isNumber = true → t ≠ EntryFieldInputType.date ∧ t ≠ EntryFieldInputType.datetime) :
    valuesEqual
      (normalizeValueForComparison (prepareControlValue v t) ⟨k, t, ro⟩)
      (normalizeValueForComparison v ⟨k, t, ro⟩) ⟨k, t, ro⟩ = true := by
  cases t with
  | text =>
    unfold normalizeValueForComparison prepareControlValue
    dsimp only
    simp [stringifyValue_str, valuesEqual, jsStrictEq]
  | textarea =>
    unfold normalizeValueForComparison prepareControlValue
    dsimp only
    simp [stringifyValue_str, valuesEqual, jsStrictEq]
  | select =>
    unfold normalizeValueForComparison prepareControlValue
    dsimp only
    simp [stringifyValue_str, valuesEqual, jsStrictEq]
  | json =>
    unfold normalizeValueForComparison prepareControlValue
    dsimp only
    simp [stringifyValue_str, valuesEqual, jsStrictEq]
  | boolean =>
    unfold normalizeValueForComparison prepareControlValue
    dsimp only
    rcases toBoolean_null_or_bool v with h | ⟨b, h⟩
    · rw [h]
      dsimp only
      simp [toBoolean_bool, valuesEqual, jsStrictEq, JSValue.isBoolean, jsTruthy, jsFalsy]
    · rw [h]
      dsimp only
      simp [toBoolean_bool, valuesEqual, jsStrictEq]
  | number =>
    unfold normalizeValueForComparison prepareControlValue
    dsimp only
    cases htn : toNumber v with
    | none =>
      dsimp only
      rw [show toNumber (JSValue.str (stringifyValue JSValue.null)) = none from rfl]
      dsimp only
      simp [valuesEqual, jsStrictEq]
    | some n =>
      dsimp only
      rw [show stringifyValue (JSValue.num n) = intToString n from rfl]
      rw [toNumber_intToString n]
      dsimp only
      simp [stringifyValue_num, valuesEqual, jsStrictEq]
  | date =>
    have hv : v.isNumber = false := by
      cases hvn : v.isNumber
      · rfl
      · exact absurd rfl (hnum hvn).1
    unfold normalizeValueForComparison prepareControlValue
    dsimp only
    rw [formatDateForInput_idem_nonnum v hv DateVariant.date]
    by_cases hemp : formatDateForInput v DateVariant.date = ""
    · rw [if_pos hemp]
      simp [valuesEqual, jsStrictEq]
    · rw [if_neg hemp]
      simp [valuesEqual, jsStrictEq]
  | datetime =>
    have hv : v.isNumber = false := by
      cases hvn : v.isNumber
      · rfl
      · exact absurd rfl (hnum hvn).2
    unfold normalizeValueForComparison prepareControlValue
    dsimp only
    rw [formatDateForInput_idem_nonnum v hv DateVariant.datetime]
    by_cases hemp : formatDateForInput v DateVariant.datetime = ""
    · rw [if_pos hemp]
      simp [valuesEqual, jsStrictEq]
    · rw [if_neg hemp]
      simp [valuesEqual, jsStrictEq]

theorem detectFieldType_num_not_date (k : String) (n : Int) :
    detectFieldType k (JSValue.num n) ≠ EntryFieldInputType.date ∧
      detectFieldType k (JSValue.num n) ≠ EntryFieldInputType.datetime := by
  unfold detectFieldType
  repeat' split
  all_goals exact ⟨by intro h; exact EntryFieldInputType.noConfusion h,
    by intro h; exact EntryFieldInputType.noConfusion h⟩

theorem detectFieldType_not_date_of_num (k : String) (v : JSValue) (hv : v.isNumber = true) :
    detectFieldType k v ≠ EntryFieldInputType.date ∧
      detectFieldType k v ≠ EntryFieldInputType.datetime := by
  cases v with
  | num n => exact detectFieldType_num_not_date k n
  | null => exact absurd hv (by simp [JSValue.isNumber])
  | bool b => exact absurd hv (by simp [JSValue.isNumber])
  | str s => exact absurd hv (by simp [JSValue.isNumber])
  | arr xs => exact absurd hv (by simp [JSValue.isNumber])
  | obj fs => exact absurd hv (by simp [JSValue.isNumber])

theorem lookupRecord_of_nodup {record : List (String × JSValue)} {k : String} {v : JSValue}
    (hnd : (record.map Prod.fst).Nodup) (hmem : (k, v) ∈ record) :
    lookupRecord record k = v := by
  induction record with
  | nil => cases hmem
  | cons hd tl ih =>
    rw [List.map_cons, List.nodup_cons] at hnd
    rcases List.mem_cons.mp hmem with heq | htl
    · subst heq
      unfold lookupRecord
      rw [List.find?_cons_of_pos _ (by simp)]
    · have hne : (hd.1 == k) = false := by
        apply beq_eq_false_iff_ne.mpr
        intro hcon
        apply hnd.1
        rw [hcon]
        exact List.mem_map.mpr ⟨(k, v), htl, rfl⟩
      unfold lookupRecord
      rw [List.find?_cons_of_neg _ (by simp [hne])]
      exact ih hnd.2 htl

/-- C1: for every raw record with distinct keys, the change-set computed by
`buildPayload` over the record and the freshly built form (detected field
types, prepared control values, no further edits) is empty. -/
theorem buildPayload_fresh_form_empty (record : List (String × JSValue))
    (hnd : (record.map Prod.fst).Nodup) :
    buildPayload record (rebuildForm record) = [] := by
  unfold buildPayload
  rw [List.filterMap_eq_nil_iff]
  intro f hf
  unfold rebuildForm at hf
  obtain ⟨kv, hkvmem, hkv⟩ := List.mem_filterMap.mp hf
  by_cases hhide : shouldHideField kv.1
  · rw [if_pos hhide] at hkv
    exact Option.noConfusion hkv
  · rw [if_neg hhide] at hkv
    injection hkv with hkv
    subst hkv
    dsimp only
    by_cases hro : isReadOnlyKey kv.1
    · rw [if_pos hro]
    · rw [if_neg hro]
      rw [show (⟨kv.1, detectFieldType kv.1 kv.2, isReadOnlyKey kv.1,
        prepareControlValue kv.2 (detectFieldType kv.1 kv.2)⟩ : FieldState).config
          = ⟨kv.1, detectFieldType kv.1 kv.2, isReadOnlyKey kv.1⟩ from rfl]
    -- the original value looked up from the record is the entry's own value
      rw [lookupRecord_of_nodup hnd (by exact hkvmem)]
      rw [if_pos (prep_then_normalize_equal (detectFieldType kv.1 kv.2) kv.1
        (isReadOnlyKey kv.1) kv.2
        (fun hn => detectFieldType_not_date_of_num kv.1 kv.2 hn))]

/-- Concrete instance of the C1 theorem on a five-field record covering
text, boolean, date, number and json fields. -/
theorem buildPayload_fresh_form_empty_witness :
    (([("name", JSValue.str "Ann"), ("is_verified", JSValue.bool true),
       ("birth_date", JSValue.str "2024-03-05T10:30:00Z"),
       ("mileage_km", JSValue.num 42),
       ("config", JSValue.obj [("a", JSValue.arr [JSValue.num 1])])].map
         Prod.fst).Nodup) ∧
    buildPayload
      [("name", JSValue.str "Ann"), ("is_verified", JSValue.bool true),
       ("birth_date", JSValue.str "2024-03-05T10:30:00Z"),
       ("mileage_km", JSValue.num 42),
       ("config", JSValue.obj [("a", JSValue.arr [JSValue.num 1])])]
      (rebuildForm
        [("name", JSValue.str "Ann"), ("is_verified", JSValue.bool true),
         ("birth_date", JSValue.str "2024-03-05T10:30:00Z"),
         ("mileage_km", JSValue.num 42),
         ("config", JSValue.obj [("a", JSValue.arr [JSValue.num 1])])]) = [] :=
  ⟨by decide, buildPayload_fresh_form_empty _ (by decide)⟩

/-- C2, counterexample to the claim as stated: `external_id` ends in `id`
and is not `metadata`, yet its descriptor is editable and the key can appear
in a change-set built from a freshly rebuilt form with an edited value. -/
theorem readonly_id_keys_counterexample :
    jsEndsWith (jsToLower "external_id") "id" = true ∧
    (jsToLower "external_id" == "metadata") = false ∧
    isReadOnlyKey "external_id" = false ∧
    buildPayload [("external_id", JSValue.str "a")]
        ((rebuildForm [("external_id", JSValue.str "a")]).map
          (fun f => ⟨f.key, f.inputType, f.readOnly, JSValue.str "b"⟩))
      = [("external_id", JSValue.str "b")] := by
  refine ⟨by decide, by decide, by decide, ?_⟩
  rfl

/-- C2 (amended): a field key ending in `id` (case-insensitively), other
than `metadata` and other than the exempted `external_id`, always yields a
read-only descriptor, and such a key never appears in a change-set built
over descriptors whose read-only flag follows `isReadOnlyKey`. -/
theorem readonly_id_keys_amended (k : String)
    (hid : jsEndsWith (jsToLower k) "id" = true)
    (hmeta : jsToLower k ≠ "metadata")
    (hext : jsToLower k ≠ "external_id")
    (record : List (String × JSValue)) (fields : List FieldState)
    (hfields : ∀ f ∈ fields, f.readOnly = isReadOnlyKey f.key) :
    isReadOnlyKey k = true ∧
    (buildPayload record fields).all (fun w => !(w.1 == k)) = true := by
  have hro : isReadOnlyKey k = true := by
    unfold isReadOnlyKey
    rw [if_neg hext]
    by_cases hset : readOnlyKeys.contains (jsToLower k) = true
    · rw [if_pos hset]
    · rw [if_neg hset, if_pos (by rw [hid, decide_eq_true hmeta]; rfl)]
  refine ⟨hro, ?_⟩
  rw [List.all_eq_true]
  intro w hw
  rw [Bool.not_eq_true']
  apply beq_eq_false_iff_ne.mpr
  obtain ⟨f, hfmem, hf⟩ := List.mem_filterMap.mp hw
  intro hkey
  by_cases hfro : f.readOnly
  · rw [if_pos hfro] at hf
    exact Option.noConfusion hf
  · rw [if_neg hfro] at hf
    have : f.readOnly = true := by
      rw [hfields f hfmem]
      have hk : f.key = k := by
        by_cases hveq : valuesEqual (normalizeValueForComparison f.controlValue f.config)
            (normalizeValueForComparison (lookupRecord record f.key) f.config) f.config
        · rw [if_pos hveq] at hf
          exact Option.noConfusion hf
        · rw [if_neg hveq] at hf
          injection hf with hf
          rw [← hf] at hkey
          exact hkey
      rw [hk, hro]
    exact hfro this

/-- Concrete instance of the C2 theorem at the key `user_id`. -/
theorem readonly_id_keys_amended_witness :
    jsEndsWith (jsToLower "user_id") "id" = true ∧
    isReadOnlyKey "user_id" = true ∧
    (buildPayload [("user_id", JSValue.str "1")]
        (rebuildForm [("user_id", JSValue.str "1")])).all
      (fun w => !(w.1 == "user_id")) = true :=
  ⟨by decide,
   (readonly_id_keys_amended "user_id" (by decide) (by decide) (by decide)
      [("user_id", JSValue.str "1")] (rebuildForm [("user_id", JSValue.str "1")])
      (by decide)).1,
   (readonly_id_keys_amended "user_id" (by decide) (by decide) (by decide)
      [("user_id", JSValue.str "1")] (rebuildForm [("user_id", JSValue.str "1")])
      (by decide)).2⟩

theorem trimChars_of_ends (cs : List Char)
    (h1 : ∀ c, cs.head? = some c → isJsWs c = false)
    (h2 : ∀ c, cs.getLast? = some c → isJsWs c = false) : trimChars cs = cs := by
  unfold trimChars
  rw [dropWhile_eq_self_of_head_false h1]
  rw [dropWhile_eq_self_of_head_false
    (fun c hc => h2 c (by rwa [List.head?_reverse] at hc))]
  exact List.reverse_reverse cs

theorem printJson_arr_head (p : Bool) (i : Nat) (xs : List JSValue) :
    (printJson p i (JSValue.arr xs)).head? = some '[' := by
  cases xs with
  | nil => cases p <;> rfl
  | cons x rest => unfold printJson; cases p <;> simp

theorem getLast?_snoc_shape (c : Char) (l : List Char) (a : Char) :
    (c :: (l ++ [a])).getLast? = some a := by
  rw [show c :: (l ++ [a]) = (c :: l) ++ [a] from rfl]
  exact List.getLast?_concat _

theorem printJson_arr_last (p : Bool) (i : Nat) (xs : List JSValue) :
    (printJson p i (JSValue.arr xs)).getLast? = some ']' := by
  cases xs with
  | nil => cases p <;> rfl
  | cons x rest =>
    unfold printJson
    cases p
    · simp only [Bool.false_eq_true, if_false]
      exact getLast?_snoc_shape _ _ _
    · simp only [eq_self_iff_true, if_true]
      rw [show printItems true (i + 2) (x :: rest) ++ nlCh :: indentChars i ++ [']']
          = (printItems true (i + 2) (x :: rest) ++ nlCh :: indentChars i) ++ [']'] from by
        simp]
      exact getLast?_snoc_shape _ _ _

theorem printJson_obj_head (p : Bool) (i : Nat) (fs : List (String × JSValue)) :
    (printJson p i (JSValue.obj fs)).head? = some lcurlyCh := by
  cases fs with
  | nil => cases p <;> rfl
  | cons f rest => unfold printJson; cases p <;> simp

theorem printJson_obj_last (p : Bool) (i : Nat) (fs : List (String × JSValue)) :
    (printJson p i (JSValue.obj fs)).getLast? = some rcurlyCh := by
  cases fs with
  | nil => cases p <;> rfl
  | cons f rest =>
    unfold printJson
    cases p
    · simp only [Bool.false_eq_true, if_false]
      exact getLast?_snoc_shape _ _ _
    · simp only [eq_self_iff_true, if_true]
      rw [show printFields true (i + 2) (f :: rest) ++ nlCh :: indentChars i ++ [rcurlyCh]
          = (printFields true (i + 2) (f :: rest) ++ nlCh :: indentChars i) ++ [rcurlyCh] from by
        simp]
      exact getLast?_snoc_shape _ _ _

theorem isJsWs_lbracket : isJsWs '[' = false := by decide

theorem trim_printJson_container (p : Bool) (v : JSValue)
    (h : (∃ xs, v = JSValue.arr xs) ∨ ∃ fs, v = JSValue.obj fs) :
    jsTrim ⟨printJson p 0 v⟩ = ⟨printJson p 0 v⟩ := by
  unfold jsTrim
  rw [data_mk]
  refine congrArg String.mk (trimChars_of_ends _ ?_ ?_) <;>
    obtain ⟨xs, rfl⟩ | ⟨fs, rfl⟩ := h <;> intro c hc
  · rw [printJson_arr_head] at hc
    injection hc with hc
    rw [← hc]
    decide
  · rw [printJson_obj_head] at hc
    injection hc with hc
    rw [← hc]
    decide
  · rw [printJson_arr_last] at hc
    injection hc with hc
    rw [← hc]
    decide
  · rw [printJson_obj_last] at hc
    injection hc with hc
    rw [← hc]
    decide

theorem printJson_container_ne_nil (p : Bool) (v : JSValue)
    (h : (∃ xs, v = JSValue.arr xs) ∨ ∃ fs, v = JSValue.obj fs) :
    (printJson p 0 v).isEmpty = false := by
  obtain ⟨xs, rfl⟩ | ⟨fs, rfl⟩ := h
  · have := printJson_arr_head p 0 xs
    cases hl : printJson p 0 (JSValue.arr xs)
    · rw [hl] at this
      exact Option.noConfusion this
    · rfl
  · have := printJson_obj_head p 0 fs
    cases hl : printJson p 0 (JSValue.obj fs)
    · rw [hl] at this
      exact Option.noConfusion this
    · rfl

/-- C3, counterexample to the claim as stated: the valid JSON value
`"[1]"` (a string) is classified json, but the editable/wire round trip
returns the array `[1]`, which is not deep-equal to the original string. -/
theorem json_roundtrip_counterexample :
    detectFieldType "notes" (JSValue.str "[1]") = EntryFieldInputType.json ∧
    prepareValueForPayload
        (prepareControlValue (JSValue.str "[1]") EntryFieldInputType.json)
        ⟨"notes", EntryFieldInputType.json, false⟩ (JSValue.str "[1]")
      = JSValue.arr [JSValue.num 1] ∧
    jsonEq
        (prepareValueForPayload
          (prepareControlValue (JSValue.str "[1]") EntryFieldInputType.json)
          ⟨"notes", EntryFieldInputType.json, false⟩ (JSValue.str "[1]"))
        (JSValue.str "[1]")
      = false :=
  ⟨rfl, rfl, rfl⟩

/-- C3 (amended): for array and object values, converting to the editable
text and back to a wire value is the identity; the pretty-printed layout of
the editable text never changes the data. -/
theorem json_roundtrip_amended (v : JSValue)
    (h : (∃ xs, v = JSValue.arr xs) ∨ ∃ fs, v = JSValue.obj fs)
    (k : String) (ro : Bool) :
    prepareValueForPayload (prepareControlValue v EntryFieldInputType.json)
      ⟨k, EntryFieldInputType.json, ro⟩ v = v := by
  have hstr : stringifyValue v = ⟨printJson true 0 v⟩ := by
    obtain ⟨xs, rfl⟩ | ⟨fs, rfl⟩ := h <;> rfl
  unfold prepareValueForPayload prepareControlValue
  dsimp only
  unfold parseJsonValue
  rw [stringifyValue_str, hstr, trim_printJson_container true v h]
  rw [if_neg (by
    rw [data_mk]
    rw [printJson_container_ne_nil true v h]
    exact fun hcon => Bool.noConfusion hcon)]
  rw [jsonParse_print]

/-- Concrete instance of the C3 theorem at a nested object value. -/
theorem json_roundtrip_amended_witness :
    prepareValueForPayload
        (prepareControlValue (JSValue.obj [("a", JSValue.arr [JSValue.num 1, JSValue.null])])
          EntryFieldInputType.json)
        ⟨"notes", EntryFieldInputType.json, false⟩
        (JSValue.obj [("a", JSValue.arr [JSValue.num 1, JSValue.null])])
      = JSValue.obj [("a", JSValue.arr [JSValue.num 1, JSValue.null])] :=
  json_roundtrip_amended _ (Or.inr ⟨_, rfl⟩) "notes" false

/-- C4: `is_verified` with `true` or `"yes"` classifies boolean,
`mileage_km` with `0` or `1` classifies number, and a numeric 0/1 value
classifies boolean only when the key satisfies the boolean-key heuristic. -/
theorem boolean_classification :
    detectFieldType "is_verified" (JSValue.bool true) = EntryFieldInputType.boolean ∧
    detectFieldType "is_verified" (JSValue.str "yes") = EntryFieldInputType.boolean ∧
    detectFieldType "mileage_km" (JSValue.num 0) = EntryFieldInputType.number ∧
    detectFieldType "mileage_km" (JSValue.num 1) = EntryFieldInputType.number ∧
    ∀ (k : String) (n : Int), (n = 0 ∨ n = 1) →
      detectFieldType k (JSValue.num n) = EntryFieldInputType.boolean →
      isBooleanKey k = true := by
  refine ⟨by decide, by decide, by decide, by decide, ?_⟩
  intro k n hn h
  unfold detectFieldType at h
  by_cases h1 : isSelectFieldKey (jsToLower k) = true
  · rw [if_pos h1] at h
    exact EntryFieldInputType.noConfusion h
  · rw [if_neg h1] at h
    by_cases h2 : jsToLower k = "external_id"
    · rw [if_pos h2] at h
      exact EntryFieldInputType.noConfusion h
    · rw [if_neg h2] at h
      by_cases h3 : shouldForceTextInput (jsToLower k) = true
      · rw [if_pos h3] at h
        by_cases h4 : shouldUseTextarea (stringifyValue (JSValue.num n)) = true
        · rw [if_pos h4] at h
          exact EntryFieldInputType.noConfusion h
        · rw [if_neg h4] at h
          exact EntryFieldInputType.noConfusion h
      · rw [if_neg h3] at h
        by_cases h5 : isBooleanValue k (JSValue.num n) = true
        · unfold isBooleanValue at h5
          dsimp only at h5
          rw [if_pos (by rcases hn with rfl | rfl <;> decide)] at h5
          exact h5
        · rw [if_neg h5] at h
          exact EntryFieldInputType.noConfusion h

/-- Concrete instance of the C4 theorem at the key `active`. -/
theorem boolean_classification_witness : isBooleanKey "active" = true :=
  boolean_classification.2.2.2.2 "active" 1 (Or.inr rfl) (by decide)

/-- C5, counterexample to the claim as stated: the key `foo` has no date
hint, the value `2024-03-05` parses as a date, yet the classifier returns
text, not date or date-time. -/
theorem date_fallback_counterexample :
    dateVariantFromKey (jsToLower "foo") = none ∧
    (jsDateParse (jsTrim "2024-03-05")).isSome = true ∧
    detectFieldType "foo" (JSValue.str "2024-03-05") = EntryFieldInputType.text :=
  ⟨rfl, rfl, rfl⟩

/-- C5 (amended): date detection uses key hints only — a key with no
per-key hint and no suffix match is never classified date or date-time,
whatever the value; no branch parses the string value as a date. -/
theorem date_detection_key_only (k : String) (v : JSValue)
    (h : dateVariantFromKey (jsToLower k) = none) :
    detectDateVariant k v = none ∧
    detectFieldType k v ≠ EntryFieldInputType.date ∧
    detectFieldType k v ≠ EntryFieldInputType.datetime := by
  have hdv : detectDateVariant k v = none := h
  refine ⟨hdv, ?_, ?_⟩ <;>
  · intro hcon
    unfold detectFieldType at hcon
    repeat' split at hcon
    all_goals try exact EntryFieldInputType.noConfusion hcon
    all_goals
      rename_i hsome
      rw [hdv] at hsome
      exact Option.noConfusion hsome

/-- Concrete instance of the C5 theorem at the key `foo`. -/
theorem date_detection_key_only_witness :
    dateVariantFromKey (jsToLower "foo") = none ∧
    detectDateVariant "foo" (JSValue.str "2024-03-05") = none :=
  ⟨by decide,
   (date_detection_key_only "foo" (JSValue.str "2024-03-05") (by decide)).1⟩

/-- C6: when the computed change-set (including the visibility append) is
empty at save time, `save` never issues a PATCH; when the guards pass it
takes the no-changes status path. -/
theorem save_empty_payload_no_patch (ctx : SaveContext)
    (hempty : appendVisibilityToPayload ctx (buildPayload ctx.record ctx.fields) = []) :
    (∀ t i p, save ctx ≠ SaveAction.patch t i p) ∧
    (ctx.canEditEntries = true → optStrTruthy ctx.currentType = true →
      optStrTruthy ctx.currentId = true → ctx.formInvalid = false →
      save ctx = SaveAction.noChanges) := by
  constructor
  · intro t i p hcon
    unfold save at hcon
    split at hcon
    · exact SaveAction.noConfusion hcon
    · rw [hempty] at hcon
      simp only [List.length_nil] at hcon
      rw [if_pos trivial] at hcon
      exact SaveAction.noConfusion hcon
  · intro h1 h2 h3 h4
    unfold save
    rw [if_neg (by rw [h1, h2, h3, h4]; decide)]
    rw [hempty]
    simp only [List.length_nil]
    rw [if_pos trivial]

/-- Concrete instance of the C6 theorem on an unchanged single-field
record. -/
theorem save_empty_payload_no_patch_witness :
    appendVisibilityToPayload
        ⟨true, some "person", some "7", false, [("name", JSValue.str "Ann")],
          rebuildForm [("name", JSValue.str "Ann")], true,
          VisibilityLevel.user, VisibilityLevel.user⟩
        (buildPayload [("name", JSValue.str "Ann")]
          (rebuildForm [("name", JSValue.str "Ann")])) = [] ∧
    save ⟨true, some "person", some "7", false, [("name", JSValue.str "Ann")],
        rebuildForm [("name", JSValue.str "Ann")], true,
        VisibilityLevel.user, VisibilityLevel.user⟩ = SaveAction.noChanges :=
  ⟨by rfl,
   (save_empty_payload_no_patch _ (by rfl)).2 rfl rfl rfl rfl⟩

theorem find?_append_of_none {α : Type} (p : α → Bool) (l1 l2 : List α)
    (h : l1.find? p = none) : (l1 ++ l2).find? p = l2.find? p := by
  induction l1 with
  | nil => rfl
  | cons a as ih =>
    rw [List.find?_cons] at h
    split at h
    · exact Option.noConfusion h
    · rename_i hfalse
      rw [List.cons_append, List.find?_cons]
      split
      · rename_i htrue
        rw [htrue] at hfalse
        exact Bool.noConfusion hfalse
      · exact ih h

/-- C7: a first dossier fetch with no cache entry for its key sends no
`If-None-Match` value and stores the data and etag under the key; a second
fetch with the same arguments and `force = false` that receives a 304
returns the stored data with `fromCache = true`, sends the stored etag as
the precondition, and leaves the cache unchanged. -/
theorem dossier_cache_conditional_reuse
    (cache : List (String × CachedDossier)) (pid : String) (limits : PartialLimits)
    (d : JSValue) (hd : jsFalsy d = false) (e : String) (he : e.data.isEmpty = false)
    (nid : String) (hnid : normalizePersonId (some pid) = some nid)
    (hmiss : cache.find? (fun kv => kv.1 == buildCacheKey nid (resolveLimits limits)) = none) :
    fetchDossier cache pid limits false ⟨200, some d, some e⟩
      = Except.ok (none, ⟨d, some e, false⟩,
          cache ++ [(buildCacheKey nid (resolveLimits limits), ⟨some e, d⟩)]) ∧
    fetchDossier (cache ++ [(buildCacheKey nid (resolveLimits limits), ⟨some e, d⟩)])
        pid limits false ⟨304, none, none⟩
      = Except.ok (some e, ⟨d, some e, true⟩,
          cache ++ [(buildCacheKey nid (resolveLimits limits), ⟨some e, d⟩)]) := by
  constructor
  · unfold fetchDossier
    rw [hnid]
    dsimp only
    rw [hmiss]
    simp only [Option.map_none']
    unfold handleDossierResponse
    dsimp only
    unfold handleDossierBody
    dsimp only
    rw [hd]
    unfold mapSet
    rw [hmiss]
    rfl
  · unfold fetchDossier
    rw [hnid]
    dsimp only
    rw [find?_append_of_none _ _ _ hmiss]
    rw [List.find?_cons_of_pos _ (by simp)]
    simp only [Option.map_some']
    unfold handleDossierResponse
    dsimp only
    rw [if_pos rfl]
    unfold buildHeaders
    dsimp only
    simp only [Bool.or_false]
    rw [he]
    rfl

/-- Concrete instance of the C7 theorem for person `42` at the default
limits. -/
theorem dossier_cache_conditional_reuse_witness :
    fetchDossier [] "42" ⟨none, none, none⟩ false ⟨200, some (JSValue.obj []), some "W1"⟩
      = Except.ok (none, ⟨JSValue.obj [], some "W1", false⟩,
          [(buildCacheKey "42" (resolveLimits ⟨none, none, none⟩),
            ⟨some "W1", JSValue.obj []⟩)]) ∧
    fetchDossier [(buildCacheKey "42" (resolveLimits ⟨none, none, none⟩),
          ⟨some "W1", JSValue.obj []⟩)]
        "42" ⟨none, none, none⟩ false ⟨304, none, none⟩
      = Except.ok (some "W1", ⟨JSValue.obj [], some "W1", true⟩,
          [(buildCacheKey "42" (resolveLimits ⟨none, none, none⟩),
            ⟨some "W1", JSValue.obj []⟩)]) := by
  have h := dossier_cache_conditional_reuse [] "42" ⟨none, none, none⟩
    (JSValue.obj []) (by decide) "W1" (by decide) "42" (by decide) rfl
  simpa using h

/-- C8, counterexample to the claim as stated: the key `42::5:5:5` starts
with the id `4`, yet `clearCache` with id `4` does not remove it (the
prefix checked is `4::`, not `4`). -/
theorem clearCache_counterexample :
    jsStartsWith "42::5:5:5" "4" = true ∧
    (clearCache [("42::5:5:5", ⟨some "e", JSValue.null⟩)] [] (some "4")).1
      = [("42::5:5:5", ⟨some "e", JSValue.null⟩)] :=
  ⟨by decide, rfl⟩

/-- C8 (amended): `clearCache` with no argument empties both caches; with
an id it drops exactly the entries (in both caches) whose key starts with
the normalized id followed by `::`. -/
theorem clearCache_amended (cache : List (String × CachedDossier))
    (pdfCache : List (String × CachedPdf)) (pid nid : String)
    (hne : pid.data.isEmpty = false)
    (hnid : normalizePersonId (some pid) = some nid) :
    clearCache cache pdfCache none = ([], []) ∧
    (∀ kv, kv ∈ (clearCache cache pdfCache (some pid)).1 ↔
      kv ∈ cache ∧ jsStartsWith kv.1 (nid ++ "::") = false) ∧
    (∀ kv, kv ∈ (clearCache cache pdfCache (some pid)).2 ↔
      kv ∈ pdfCache ∧ jsStartsWith kv.1 (nid ++ "::") = false) := by
  refine ⟨rfl, ?_, ?_⟩ <;> intro kv <;>
  · unfold clearCache
    dsimp only
    simp only [hne, Bool.false_eq_true, if_false, hnid]
    rw [List.mem_filter]
    simp

/-- Concrete instance of the C8 theorem: clearing id `42` keeps the
entry of id `7`. -/
theorem clearCache_amended_witness :
    clearCache [("42::5:5:5", ⟨some "e", JSValue.null⟩), ("7::5:5:5", ⟨none, JSValue.null⟩)]
        [] none = ([], []) ∧
    (("7::5:5:5", (⟨none, JSValue.null⟩ : CachedDossier)) ∈
      (clearCache [("42::5:5:5", ⟨some "e", JSValue.null⟩), ("7::5:5:5", ⟨none, JSValue.null⟩)]
        [] (some "42")).1) := by
  have h := clearCache_amended
    [("42::5:5:5", ⟨some "e", JSValue.null⟩), ("7::5:5:5", ⟨none, JSValue.null⟩)]
    [] "42" "42" (by decide) (by decide)
  exact ⟨h.1, (h.2.1 _).mpr ⟨List.Mem.tail _ (List.Mem.head _), by decide⟩⟩

/-- C9: the shared API client checks roles before any request value is
constructed — a DELETE without delete rights and a POST/PUT/PATCH without
edit rights yield the local permission error, while a GET never hits the
permission gate. -/
theorem request_permission_gate (auth : AuthState) (baseUrl endpoint : String) :
    (auth.canDeleteEntries = false →
      request auth baseUrl HttpMethod.DELETE endpoint
        = Except.error "Insufficient permissions for this operation.") ∧
    (∀ m, (m = HttpMethod.POST ∨ m = HttpMethod.PUT ∨ m = HttpMethod.PATCH) →
      auth.canEditEntries = false →
      request auth baseUrl m endpoint
        = Except.error "Insufficient permissions for this operation.") ∧
    request auth baseUrl HttpMethod.GET endpoint
      = Except.ok ⟨HttpMethod.GET, buildUrl baseUrl endpoint⟩ := by
  refine ⟨?_, ?_, ?_⟩
  · intro h
    unfold request
    rw [if_pos ⟨rfl, h⟩]
  · intro m hm h
    unfold request
    rw [if_neg (by
      rcases hm with rfl | rfl | rfl <;> exact fun hcon => HttpMethod.noConfusion hcon.1)]
    rw [if_pos (by
      rcases hm with rfl | rfl | rfl <;>
        exact ⟨fun hcon => HttpMethod.noConfusion hcon, fun hcon => HttpMethod.noConfusion hcon, h⟩)]
  · unfold request
    rw [if_neg (fun hcon => HttpMethod.noConfusion hcon.1)]
    rw [if_neg (fun hcon => hcon.1 rfl)]

/-- Concrete instance of the C9 theorem for a user with no write
permissions. -/
theorem request_permission_gate_witness :
    request ⟨false, false⟩ "https://api.example/" HttpMethod.DELETE "persons/1"
      = Except.error "Insufficient permissions for this operation." ∧
    request ⟨false, false⟩ "https://api.example/" HttpMethod.PATCH "persons/1"
      = Except.error "Insufficient permissions for this operation." ∧
    request ⟨false, false⟩ "https://api.example/" HttpMethod.GET "persons/1"
      = Except.ok ⟨HttpMethod.GET, buildUrl "https://api.example/" "persons/1"⟩ :=
  ⟨(request_permission_gate ⟨false, false⟩ "https://api.example/" "persons/1").1 rfl,
   (request_permission_gate ⟨false, false⟩ "https://api.example/" "persons/1").2.1
     HttpMethod.PATCH (Or.inr (Or.inr rfl)) rfl,
   (request_permission_gate ⟨false, false⟩ "https://api.example/" "persons/1").2.2⟩

/-- C10: every requested dossier limit is normalized before use — missing
and non-finite values become the default 5, finite values are truncated
toward zero and clamped — so each resolved limit lies in `[0, 50]` and
absent limits resolve to the defaults. -/
theorem resolveLimits_clamped (part : PartialLimits) :
    (0 ≤ (resolveLimits part).profiles ∧ (resolveLimits part).profiles ≤ 50) ∧
    (0 ≤ (resolveLimits part).notes ∧ (resolveLimits part).notes ≤ 50) ∧
    (0 ≤ (resolveLimits part).activities ∧ (resolveLimits part).activities ≤ 50) ∧
    resolveLimits ⟨none, none, none⟩ = defaultLimits ∧
    (∀ fb, clampLimit none fb = fb) ∧
    (∀ fb, clampLimit (some JSNumber.nan) fb = fb) ∧
    (∀ fb, clampLimit (some JSNumber.posInf) fb = fb) ∧
    (∀ fb, clampLimit (some JSNumber.negInf) fb = fb) := by
  have hcl : ∀ v, 0 ≤ clampLimit v 5 ∧ clampLimit v 5 ≤ 50 := by
    intro v
    unfold clampLimit
    match v with
    | none => exact ⟨by norm_num, by norm_num⟩
    | some JSNumber.nan => exact ⟨by norm_num, by norm_num⟩
    | some JSNumber.posInf => exact ⟨by norm_num, by norm_num⟩
    | some JSNumber.negInf => exact ⟨by norm_num, by norm_num⟩
    | some (JSNumber.finite q) =>
      refine ⟨?_, ?_⟩ <;> dsimp only <;> omega
  exact ⟨hcl part.profiles, hcl part.notes, hcl part.activities, rfl,
    fun fb => rfl, fun fb => rfl, fun fb => rfl, fun fb => rfl⟩
